import Mathlib

/-!
Verification of the short-video generator's asset pipeline.

Shallow embedding of the TypeScript sources:
  * `src/unnamed/part_000`        — `Scene` data model (types.ts) and the snapshot store
  * `src/components/AssetGenerator.tsx` — retry wrapper, batch loops, safe-save gate,
    final validation/handoff
  * `src/services/geminiService.ts` — script extraction, image style choice, TTS cleaning
  * `src/src/remotion/Composition.tsx`, `src/unnamed/part_004`, `src/components/Player.tsx`
    — scene-timing consumers
  * `src/unnamed/part_003`        — id assignment in `startProduction`

JavaScript numbers that carry durations are modelled as rationals (`ℚ`);
machine floating point is not modelled.  Strings are modelled either as Lean
`String`s or as `List Char` where the source indexes into them.
-/

namespace SVG

/-- Decoded audio buffer: the only observable the code uses is `duration`
(seconds), read from `AudioBuffer.duration`. -/
structure AudioBuffer where
  duration : ℚ
deriving Repr, DecidableEq, Inhabited

/-- Structure `Scene` from `src/unnamed/part_000` (types.ts).  Optional fields are
`Option`; `undefined` is `none`. -/
structure Scene where
  id : ℕ
  title : String
  visual_description : String
  narration : String
  durationInSeconds : ℚ
  imageData : Option String := none
  imageFile : Option String := none
  videoData : Option String := none
  videoFile : Option String := none
  audioBuffer : Option AudioBuffer := none
  audioData : Option String := none
  audioFile : Option String := none
  actualDuration : Option ℚ := none
deriving Repr, DecidableEq, Inhabited

/-- A scene of `StoryboardResponse` (types.ts): the script the model returns,
before ids are assigned. -/
structure RawScene where
  title : String
  visual_description : String
  narration : String
  durationInSeconds : ℚ
deriving Repr, DecidableEq, Inhabited

/-! ## Id assignment (`startProduction`, `src/unnamed/part_003` lines 100-104)

`const rawScenes = response.scenes.map((s, i) => ({ ...s, id: i }));` -/

def mkScene (i : ℕ) (s : RawScene) : Scene :=
  { id := i
    title := s.title
    visual_description := s.visual_description
    narration := s.narration
    durationInSeconds := s.durationInSeconds }

def assignIdsFrom (i : ℕ) : List RawScene → List Scene
  | [] => []
  | s :: rest => mkScene i s :: assignIdsFrom (i + 1) rest

def assignIds (scenes : List RawScene) : List Scene :=
  assignIdsFrom 0 scenes

/-! ## Scene timing model

`Composition.tsx` lines 57-63 (also `part_005`):
  `rawDuration = scene.actualDuration || scene.durationInSeconds || 5`
  `effectiveDuration = rawDuration / 1.5`
`part_004` lines 56-62 additionally adds a `0.2` second buffer.
`Player.tsx` `playSceneAudio` lines 125-158: with a decoded buffer the scene
ends when the buffer finishes playing at rate 1.5; with no buffer it uses
`Math.max(3000, scene.narration.length * 200)` milliseconds. -/

/-- JavaScript `a || b` on an optional number: `undefined` and `0` are falsy. -/
def jsOrQ (a : Option ℚ) (b : ℚ) : ℚ :=
  match a with
  | some x => if x = 0 then b else x
  | none => b

def playbackSpeed : ℚ := 3 / 2

def rawDuration (s : Scene) : ℚ :=
  jsOrQ s.actualDuration (if s.durationInSeconds = 0 then 5 else s.durationInSeconds)

/-- Per-scene visual duration in `Composition.tsx` / `part_005` (seconds). -/
def effectiveDuration (s : Scene) : ℚ :=
  rawDuration s / playbackSpeed

/-- Per-scene visual duration in `part_004` (`sceneTimings`) and in the
`transitions.tsx` root: `effectiveDuration + 0.2` seconds of safety buffer. -/
def sceneDurationWithBuffer (s : Scene) : ℚ :=
  effectiveDuration s + 1 / 5

/-- On-screen duration of a scene in the interactive player (`playSceneAudio`),
in milliseconds: the decoded buffer played at `playbackRate = 1.5` ends after
`duration / 1.5` seconds; without audio the fallback timer is
`Math.max(3000, narration.length * 200)`. -/
def playerSceneDurationMs (s : Scene) : ℚ :=
  match s.audioBuffer with
  | some buf => buf.duration / playbackSpeed * 1000
  | none => max 3000 ((s.narration.length : ℚ) * 200)

/-! ## Image style selection (`generateImageForScene`,
`src/services/geminiService.ts` lines 157-200)

`const isLast = sceneIndex === totalScenes - 1;` then `if (isLast)` the
"Pop Art" prompt is used, `else` the hand-drawn infographic prompt. -/

inductive ImageStyle where
  | popArt
  | infographic
deriving Repr, DecidableEq

/-- JavaScript arithmetic for `totalScenes - 1` (can be `-1` for 0 scenes). -/
def selectImageStyle (sceneIndex totalScenes : ℕ) : ImageStyle :=
  if (sceneIndex : ℤ) = (totalScenes : ℤ) - 1 then .popArt else .infographic

/-- The progress label computed in `imageLoop`
(`src/components/AssetGenerator.tsx` line 123):
`(actualIndex === 0 || actualIndex === totalScenes - 1) ? "视觉冲击 (Pop Art)" : "信息图表 (Infographic)"`. -/
def statusStyleName (actualIndex totalScenes : ℕ) : String :=
  if actualIndex = 0 ∨ (actualIndex : ℤ) = (totalScenes : ℤ) - 1 then
    "视觉冲击 (Pop Art)"
  else
    "信息图表 (Infographic)"

/-! ## Retry wrapper (`retryOperation`,
`src/components/AssetGenerator.tsx` lines 32-41)

```
async function retryOperation(fn, retries = 3, delay = 1000) {
  try { return await fn(); }
  catch (error) {
    if (retries <= 0) throw error;
    await new Promise(resolve => setTimeout(resolve, delay));
    return retryOperation(fn, retries - 1, delay * 2);
  }
}
```
`fn` is modelled as a stream of per-call outcomes (`call` is the index of the
next invocation).  The result records the final outcome, the list of waits (ms)
performed between attempts, and the number of times `fn` was invoked. -/

structure RetryRun (E A : Type) where
  result : Except E A
  waits : List ℕ
  calls : ℕ
deriving Repr

def retryOperation {E A : Type} (fn : ℕ → Except E A) :
    (call : ℕ) → (retries : ℕ) → (delay : ℕ) → RetryRun E A
  | call, retries, delay =>
    match fn call with
    | .ok a => ⟨.ok a, [], 1⟩
    | .error e =>
      match retries with
      | 0 => ⟨.error e, [], 1⟩
      | r + 1 =>
        let rec' := retryOperation fn (call + 1) r (delay * 2)
        ⟨rec'.result, delay :: rec'.waits, rec'.calls + 1⟩

/-- Retry/backoff constants the pipeline passes to `retryOperation`
(`AssetGenerator.tsx` lines 100 and 137). -/
def AUDIO_RETRIES : ℕ := 2
def AUDIO_INITIAL_DELAY : ℕ := 1000
def IMAGE_RETRIES : ℕ := 2
def IMAGE_INITIAL_DELAY : ℕ := 2000

/-! ## TTS input cleaning (`generateSpeechForScene`,
`src/services/geminiService.ts` lines 243-257)

```
const cleanedText = text.replace(/[^一-龥a-zA-Z0-9\s,，.。?？!！:：;；]/g, ' ');
const textWithPause = `${cleanedText} [medium pause]。`;
```
-/

/-- JavaScript regex `\s` (the main cases). -/
def isJsSpace (c : Char) : Bool :=
  c = ' ' || c = '\t' || c = '\n' || c = '\r' ||
  c = '\u000b' || c = '\u000c' || c.toNat = 0xa0 || c.toNat = 0x1680 ||
  (0x2000 ≤ c.toNat && c.toNat ≤ 0x200a) || c.toNat = 0x2028 ||
  c.toNat = 0x2029 || c.toNat = 0x202f || c.toNat = 0x205f ||
  c.toNat = 0x3000 || c.toNat = 0xfeff

/-- Character class `[一-龥a-zA-Z0-9\s,，.。?？!！:：;；]`. -/
def isWhitelisted (c : Char) : Bool :=
  (0x4e00 ≤ c.toNat && c.toNat ≤ 0x9fa5) ||
  ('a' ≤ c && c ≤ 'z') || ('A' ≤ c && c ≤ 'Z') || ('0' ≤ c && c ≤ '9') ||
  isJsSpace c ||
  c = ',' || c = '，' || c = '.' || c = '。' || c = '?' || c = '？' ||
  c = '!' || c = '！' || c = ':' || c = '：' || c = ';' || c = '；'

/-- The global replace: every non-whitelisted character becomes a space. -/
def cleanForTTS (text : List Char) : List Char :=
  text.map (fun c => if isWhitelisted c then c else ' ')

def pauseSuffix : List Char := " [medium pause]。".toList

/-- The text actually submitted to the speech model. -/
def ttsSubmittedText (text : List Char) : List Char :=
  cleanForTTS text ++ pauseSuffix

/-! ## The shared `results` array and the two pipelines' writes
(`AssetGenerator.tsx` lines 78-107 and 120-144)

`const results: Scene[] = [...script]` is the shared array.  On a successful
audio attempt the audio loop performs
```
results[actualIndex].audioBuffer = audioBuffer;
results[actualIndex].actualDuration = audioBuffer.duration;
results[actualIndex].audioData = audioBase64;
```
and on a successful image attempt the image loop performs
`results[actualIndex].imageData = imageData`.  Failures write nothing.
An execution of the two concurrent loops is abstracted as the list of
successful writes in the order they were performed. -/

def audioSuccessUpdate (buf : AudioBuffer) (b64 : String) (s : Scene) : Scene :=
  { s with audioBuffer := some buf
           actualDuration := some buf.duration
           audioData := some b64 }

def imageSuccessUpdate (img : String) (s : Scene) : Scene :=
  { s with imageData := some img }

/-- Write `results[i] = f(results[i])`; out-of-range writes are impossible in the
source (`actualIndex < totalScenes`) and are no-ops here. -/
def modifyIdx (f : Scene → Scene) : List Scene → ℕ → List Scene
  | [], _ => []
  | s :: rest, 0 => f s :: rest
  | s :: rest, n + 1 => s :: modifyIdx f rest n

inductive AssetEvent where
  | audioSuccess (i : ℕ) (buf : AudioBuffer) (b64 : String)
  | imageSuccess (i : ℕ) (img : String)
deriving Repr, DecidableEq

def applyEvent (rs : List Scene) : AssetEvent → List Scene
  | .audioSuccess i buf b64 => modifyIdx (audioSuccessUpdate buf b64) rs i
  | .imageSuccess i img => modifyIdx (imageSuccessUpdate img) rs i

/-- Replay an interleaved list of successful writes over the shared array. -/
def runEvents (rs : List Scene) (evs : List AssetEvent) : List Scene :=
  evs.foldl applyEvent rs

/-! ## Oracle-driven pipeline outcomes

The remote calls are modelled as oracles giving the outcome of each attempt:
for scene `i`, attempt `k` (0-based), the audio oracle yields the base64
audio together with its decoded buffer, or a failure; the image oracle yields
the base64 image string or a failure.  `imageLoop` additionally throws
`"Generated image data is empty"` inside the retried operation when the
returned string is empty (line 131). -/

def AudioOracle : Type := ℕ → ℕ → Except String (AudioBuffer × String)
def ImageOracle : Type := ℕ → ℕ → Except String String

def imageAttempt (oI : ImageOracle) (i k : ℕ) : Except String String :=
  match oI i k with
  | .ok s => if s.isEmpty then .error "Generated image data is empty" else .ok s
  | .error e => .error e

/-- Outcome of the audio loop's retried operation for scene `i`. -/
def audioOutcome (oA : AudioOracle) (i : ℕ) : Except String (AudioBuffer × String) :=
  (retryOperation (oA i) 0 AUDIO_RETRIES AUDIO_INITIAL_DELAY).result

/-- Outcome of the image loop's retried operation for scene `i`. -/
def imageOutcome (oI : ImageOracle) (i : ℕ) : Except String String :=
  (retryOperation (imageAttempt oI i) 0 IMAGE_RETRIES IMAGE_INITIAL_DELAY).result

/-- The write events the audio loop produces over `n` scenes. -/
def audioEvents (oA : AudioOracle) (n : ℕ) : List AssetEvent :=
  (List.range n).filterMap fun i =>
    match audioOutcome oA i with
    | .ok (buf, b64) => some (.audioSuccess i buf b64)
    | .error _ => none

/-- The write events the image loop produces over `n` scenes. -/
def imageEvents (oI : ImageOracle) (n : ℕ) : List AssetEvent :=
  (List.range n).filterMap fun i =>
    match imageOutcome oI i with
    | .ok img => some (.imageSuccess i img)
    | .error _ => none

/-- Final state of the shared array after both loops have settled (the write
sets commute field-wise, so replaying audio then image writes represents every
interleaving of `Promise.all([audioLoop(), imageLoop()])`). -/
def runPipelines (rs : List Scene) (oA : AudioOracle) (oI : ImageOracle) : List Scene :=
  runEvents (runEvents rs (audioEvents oA rs.length)) (imageEvents oI rs.length)

/-! ## Final validation and handoff (`generateAssets`,
`AssetGenerator.tsx` lines 151-174)

```
const validImages = results.filter(r => !!r.imageData).length;
const validAudio = results.filter(r => !!r.audioBuffer).length;
if (validImages === 0 && validAudio === 0) { setStatus(...); return; }
try { await saveCurrentProject(results, topic); } catch(e) { ... }
setTimeout(() => { onComplete(results); }, 800);
```
-/

/-- JavaScript truthiness of an optional string (`!!r.imageData`). -/
def truthyStr : Option String → Bool
  | none => false
  | some s => !s.isEmpty

def validImages (rs : List Scene) : ℕ :=
  rs.countP fun r => truthyStr r.imageData

def validAudio (rs : List Scene) : ℕ :=
  rs.countP fun r => r.audioBuffer.isSome

inductive FinalOutcome where
  /-- Branch `setStatus("生成失败：…")` and `return` without calling `onComplete`. -/
  | totalFailure
  /-- Handoff: `onComplete(results)` was called; `finalSaveOk` records whether the final
  `saveCurrentProject` succeeded (its failure is caught and logged). -/
  | handoff (scenes : List Scene) (finalSaveOk : Bool)
deriving Repr, DecidableEq

def finalize (rs : List Scene) (finalSaveOk : Bool) : FinalOutcome :=
  if validImages rs = 0 ∧ validAudio rs = 0 then
    .totalFailure
  else
    .handoff rs finalSaveOk

/-! ## Incremental persistence gate (`safeSave`,
`AssetGenerator.tsx` lines 45-67)

```
let isSaving = false; let pendingSave = false;
const safeSave = async () => {
  if (isSaving) { pendingSave = true; return; }
  isSaving = true;
  try { await saveCurrentProject(results, topic); }
  catch (e) { console.warn("Incremental save failed (ignored)", e); }
  finally {
    isSaving = false;
    if (pendingSave) { pendingSave = false; setTimeout(safeSave, 500); }
  }
};
```
State observed between the atomic (single-threaded) sections: the two flags,
the number of `saveCurrentProject` calls in flight, the number of store writes
started, and the number of scheduled-but-unfired deferred callbacks. -/

structure SaveState where
  isSaving : Bool
  pendingSave : Bool
  inFlight : ℕ
  writes : ℕ
  timers : ℕ
deriving Repr, DecidableEq

def initSaveState : SaveState :=
  ⟨false, false, 0, 0, 0⟩

/-- The synchronous prefix of `safeSave()` (run both on a direct call and when
a deferred `setTimeout(safeSave, 500)` callback fires). -/
def requestSave (st : SaveState) : SaveState :=
  if st.isSaving then
    { st with pendingSave := true }
  else
    { st with isSaving := true, inFlight := st.inFlight + 1, writes := st.writes + 1 }

inductive SaveEvent where
  /-- An incremental-save request from either pipeline. -/
  | request
  /-- The awaited `saveCurrentProject` finishes (`ok` = it did not throw);
  the `finally` block runs. -/
  | complete (ok : Bool)
  /-- A scheduled deferred callback fires and re-invokes `safeSave`. -/
  | timerFire
deriving Repr, DecidableEq

def safeSaveStep (st : SaveState) : SaveEvent → SaveState
  | .request => requestSave st
  | .complete _ =>
    if st.isSaving then
      let st' := { st with isSaving := false, inFlight := st.inFlight - 1 }
      if st.pendingSave then
        { st' with pendingSave := false, timers := st.timers + 1 }
      else st'
    else st
  | .timerFire =>
    if st.timers = 0 then st
    else requestSave { st with timers := st.timers - 1 }

def runSaveEvents (st : SaveState) (evs : List SaveEvent) : SaveState :=
  evs.foldl safeSaveStep st

/-! ## Batch scheduling (`audioLoop` lines 73-109, `imageLoop` lines 115-146)

Both loops run
```
const BATCH_SIZE = 3;
for (let i = 0; i < totalScenes; i += BATCH_SIZE) {
  const batch = script.slice(i, i + BATCH_SIZE);
  await Promise.all(batch.map(async (scene, index) => { const actualIndex = i + index; ... }));
}
```
so each loop processes the scene indices `0..n-1` in consecutive chunks of 3.
Within `Promise.all(batch.map(...))` each async callback is started
synchronously (all launches precede every completion of the batch), and the
loop body `await`s until every member has settled before the next iteration. -/

def BATCH_SIZE : ℕ := 3

/-- The `slice(i, i+3)` chunking of a list (here: of the scene indices). -/
def chunks {α : Type} : List α → List (List α)
  | [] => []
  | [a] => [[a]]
  | [a, b] => [[a, b]]
  | a :: b :: c :: rest => [a, b, c] :: chunks rest

/-- The consecutive batches of scene indices one pipeline loop processes. -/
def batches (n : ℕ) : List (List ℕ) :=
  chunks (List.range n)

inductive SchedEvent where
  /-- The generation operation for scene `i` is launched. -/
  | start (i : ℕ)
  /-- Scene `i` settles: its operation succeeded or exhausted its retries. -/
  | settle (i : ℕ)
deriving Repr, DecidableEq

/-- Traces of one pipeline loop over a batch list: for each batch, all member
operations are launched (synchronously, in order) and then settle in some
arbitrary order, before the loop advances to the next batch. -/
inductive BatchesTrace : List (List ℕ) → List SchedEvent → Prop
  | nil : BatchesTrace [] []
  | cons (b ord : List ℕ) (rest : List (List ℕ)) (tr : List SchedEvent) :
      ord.Perm b → BatchesTrace rest tr →
      BatchesTrace (b :: rest) (b.map .start ++ ord.map .settle ++ tr)

/-- The possible event traces of `audioLoop`/`imageLoop` over `n` scenes. -/
def IsPipelineTrace (n : ℕ) (tr : List SchedEvent) : Prop :=
  BatchesTrace (batches n) tr

/-! ## Script extraction (`generateScript`,
`src/services/geminiService.ts` lines 122-154)

```
const text = chat.choices[0].message.content;
if (!text) throw new Error("Failed to generate script: Empty response text");
let cleanText = text.replace(/```json\n?|\n?```/g, "").trim();
const firstBrace = cleanText.indexOf('{');
const lastBrace = cleanText.lastIndexOf('}');
if (firstBrace !== -1 && lastBrace !== -1 && lastBrace > firstBrace) {
    cleanText = cleanText.substring(firstBrace, lastBrace + 1);
}
return JSON.parse(cleanText) as StoryboardResponse;
```
-/

def startsWithChars : List Char → List Char → Bool
  | [], _ => true
  | _ :: _, [] => false
  | p :: ps, c :: cs => p = c && startsWithChars ps cs

def fenceOpenNl : List Char := '`' :: '`' :: '`' :: 'j' :: 's' :: 'o' :: 'n' :: '\n' :: []
def fenceOpen : List Char := '`' :: '`' :: '`' :: 'j' :: 's' :: 'o' :: 'n' :: []
def fenceNlClose : List Char := '\n' :: '`' :: '`' :: '`' :: []
def fenceClose : List Char := '`' :: '`' :: '`' :: []

/-- Left-to-right global replacement of `/```json\n?|\n?```/` by the empty
string: at each position the regex tries `"```json" ++ optional "\n"` first
(greedy), then `optional "\n" ++ "```"` (greedy).  `fuel` bounds the scan; the
wrapper passes the input length, which is always enough because every step
consumes at least one character. -/
def stripFencesAux : ℕ → List Char → List Char
  | _, [] => []
  | 0, l => l
  | fuel + 1, l@(c :: rest) =>
    if startsWithChars fenceOpenNl l then stripFencesAux fuel (l.drop 8)
    else if startsWithChars fenceOpen l then stripFencesAux fuel (l.drop 7)
    else if startsWithChars fenceNlClose l then stripFencesAux fuel (l.drop 4)
    else if startsWithChars fenceClose l then stripFencesAux fuel (l.drop 3)
    else c :: stripFencesAux fuel rest

def stripFences (l : List Char) : List Char :=
  stripFencesAux l.length l

/-- Whitespace removal of `String.prototype.trim`. -/
def jsTrim (l : List Char) : List Char :=
  ((l.dropWhile isJsSpace).reverse.dropWhile isJsSpace).reverse

/-- JavaScript `indexOf(c)`; its `-1` is `none`. -/
def indexOfChar (l : List Char) (c : Char) : Option ℕ :=
  l.findIdx? (· = c)

/-- JavaScript `lastIndexOf(c)`. -/
def lastIndexOfChar (l : List Char) (c : Char) : Option ℕ :=
  (l.reverse.findIdx? (· = c)).map (fun k => l.length - 1 - k)

/-- The cleanup performed on the response before `JSON.parse`. -/
def extractCandidate (text : List Char) : List Char :=
  let clean := jsTrim (stripFences text)
  match indexOfChar clean '{', lastIndexOfChar clean '}' with
  | some f, some lb =>
    if f < lb then (clean.drop f).take (lb + 1 - f) else clean
  | _, _ => clean

/-! `JSON.parse` is a platform builtin; it is modelled by an ECMA-404 parser.
Number lexemes are kept as validated strings and `\uXXXX` escapes are decoded
with `Char.ofNat` (lone surrogates are approximated); neither simplification
affects which inputs parse. -/

inductive Json where
  | null
  | bool (b : Bool)
  | num (lexeme : String)
  | str (s : String)
  | arr (elems : List Json)
  | obj (members : List (String × Json))
deriving Inhabited

def isJsonWs (c : Char) : Bool :=
  c = ' ' || c = '\t' || c = '\n' || c = '\r'

def skipJsonWs (l : List Char) : List Char :=
  l.dropWhile isJsonWs

def isHexDigit (c : Char) : Bool :=
  ('0' ≤ c && c ≤ '9') || ('a' ≤ c && c ≤ 'f') || ('A' ≤ c && c ≤ 'F')

def hexVal (c : Char) : ℕ :=
  if '0' ≤ c && c ≤ '9' then c.toNat - '0'.toNat
  else if 'a' ≤ c && c ≤ 'f' then c.toNat - 'a'.toNat + 10
  else if 'A' ≤ c && c ≤ 'F' then c.toNat - 'A'.toNat + 10
  else 0

/-- Body of a JSON string literal (after the opening quote): returns the
decoded characters and the input after the closing quote. -/
def parseStringBody : List Char → Option (List Char × List Char)
  | [] => none
  | '"' :: rest => some ([], rest)
  | '\\' :: esc =>
    match esc with
    | 'u' :: a :: b :: c :: d :: rest =>
      if isHexDigit a && isHexDigit b && isHexDigit c && isHexDigit d then
        (parseStringBody rest).map fun (s, r) =>
          (Char.ofNat (hexVal a * 4096 + hexVal b * 256 + hexVal c * 16 + hexVal d) :: s, r)
      else none
    | e :: rest =>
      let dec : Option Char :=
        if e = '"' then some '"'
        else if e = '\\' then some '\\'
        else if e = '/' then some '/'
        else if e = 'b' then some (Char.ofNat 8)
        else if e = 'f' then some (Char.ofNat 12)
        else if e = 'n' then some '\n'
        else if e = 'r' then some '\r'
        else if e = 't' then some '\t'
        else none
      match dec with
      | some ch => (parseStringBody rest).map fun (s, r) => (ch :: s, r)
      | none => none
    | [] => none
  | c :: rest =>
    if c.toNat < 0x20 then none
    else (parseStringBody rest).map fun (s, r) => (c :: s, r)

def digits (l : List Char) : List Char × List Char :=
  (l.takeWhile Char.isDigit, l.dropWhile Char.isDigit)

/-- JSON number grammar: `-? int frac? exp?`.  Returns the lexeme. -/
def parseNumber (l : List Char) : Option (List Char × List Char) := do
  let (sign, l1) :=
    match l with
    | '-' :: r => (['-'], r)
    | _ => (([] : List Char), l)
  let (intPart, l2) ←
    match l1 with
    | '0' :: r => some (['0'], r)
    | c :: _ =>
      if c.isDigit then
        let (d, r) := digits l1
        some (d, r)
      else none
    | [] => none
  let (fracPart, l3) ←
    match l2 with
    | '.' :: r =>
      let (d, r') := digits r
      if d.isEmpty then none else some ('.' :: d, r')
    | _ => some (([] : List Char), l2)
  let (expPart, l4) ←
    match l3 with
    | e :: r =>
      if e = 'e' ∨ e = 'E' then
        let (es, r1) :=
          match r with
          | '+' :: r' => (['+'], r')
          | '-' :: r' => (['-'], r')
          | _ => (([] : List Char), r)
        let (d, r2) := digits r1
        if d.isEmpty then none else some (e :: (es ++ d), r2)
      else some (([] : List Char), l3)
    | [] => some (([] : List Char), l3)
  some (sign ++ intPart ++ fracPart ++ expPart, l4)

mutual

/-- Parse one JSON value; `fuel` bounds nesting (the wrapper supplies more than
the input length, which is always sufficient). -/
def parseJsonValue : ℕ → List Char → Option (Json × List Char)
  | 0, _ => none
  | fuel + 1, l =>
    match skipJsonWs l with
    | '{' :: rest =>
      match skipJsonWs rest with
      | '}' :: r => some (.obj [], r)
      | r => (parseMembers fuel r).map fun (ms, r') => (.obj ms, r')
    | '[' :: rest =>
      match skipJsonWs rest with
      | ']' :: r => some (.arr [], r)
      | r => (parseElements fuel r).map fun (es, r') => (.arr es, r')
    | '"' :: rest =>
      (parseStringBody rest).map fun (s, r) => (.str (String.mk s), r)
    | 't' :: 'r' :: 'u' :: 'e' :: r => some (.bool true, r)
    | 'f' :: 'a' :: 'l' :: 's' :: 'e' :: r => some (.bool false, r)
    | 'n' :: 'u' :: 'l' :: 'l' :: r => some (.null, r)
    | l' =>
      (parseNumber l').map fun (lex, r) => (.num (String.mk lex), r)

/-- Parse `string ws : value (, ...)* }` (at least one member). -/
def parseMembers : ℕ → List Char → Option (List (String × Json) × List Char)
  | 0, _ => none
  | fuel + 1, l =>
    match skipJsonWs l with
    | '"' :: rest => do
      let (key, r1) ← parseStringBody rest
      match skipJsonWs r1 with
      | ':' :: r2 => do
        let (v, r3) ← parseJsonValue fuel r2
        match skipJsonWs r3 with
        | ',' :: r4 => do
          let (ms, r5) ← parseMembers fuel r4
          some ((String.mk key, v) :: ms, r5)
        | '}' :: r4 => some ([(String.mk key, v)], r4)
        | _ => none
      | _ => none
    | _ => none

/-- Parse `value (, ...)* ]` (at least one element). -/
def parseElements : ℕ → List Char → Option (List Json × List Char)
  | 0, _ => none
  | fuel + 1, l => do
    let (v, r1) ← parseJsonValue fuel l
    match skipJsonWs r1 with
    | ',' :: r2 => do
      let (es, r3) ← parseElements fuel r2
      some (v :: es, r3)
    | ']' :: r2 => some ([v], r2)
    | _ => none

end

/-- Model of `JSON.parse`: one value, whole input consumed (modulo whitespace). -/
def jsonParse (l : List Char) : Option Json :=
  match parseJsonValue (l.length + 1) l with
  | some (v, rest) => if skipJsonWs rest = [] then some v else none
  | none => none

inductive ScriptError where
  /-- `"Failed to generate script: Empty response text"`. -/
  | emptyResponse
  /-- `JSON.parse` threw on the extracted span. -/
  | parseFailure
deriving Repr, DecidableEq

/-- `generateScript`'s handling of the model response text. -/
def generateScript (text : List Char) : Except ScriptError Json :=
  if text.isEmpty then .error .emptyResponse
  else
    match jsonParse (extractCandidate text) with
    | some v => .ok v
    | none => .error .parseFailure

/-- The audio-owned fields of a scene: `(audioBuffer, actualDuration, audioData)`. -/
def audioFieldsOf (s : Scene) : Option AudioBuffer × Option ℚ × Option String :=
  (s.audioBuffer, s.actualDuration, s.audioData)

/-- Value of scene `i`'s `imageData` after replaying `evs` over a current value. -/
def imageAfter (cur : Option String) (evs : List AssetEvent) (i : ℕ) : Option String :=
  evs.foldl
    (fun acc e =>
      match e with
      | .imageSuccess j img => if j = i then some img else acc
      | _ => acc)
    cur

/-- Value of scene `i`'s audio fields after replaying `evs` over a current value. -/
def audioAfter (cur : Option AudioBuffer × Option ℚ × Option String)
    (evs : List AssetEvent) (i : ℕ) : Option AudioBuffer × Option ℚ × Option String :=
  evs.foldl
    (fun acc e =>
      match e with
      | .audioSuccess j buf b64 => if j = i then (some buf, some buf.duration, some b64) else acc
      | _ => acc)
    cur

/-- Scene list as the downstream consumer receives it: ids assigned by
`startProduction`, then both asset pipelines run to completion. -/
def producedScenes (raw : List RawScene) (oA : AudioOracle) (oI : ImageOracle) : List Scene :=
  runPipelines (assignIds raw) oA oI

/-- A scene used in concrete counterexamples: no audio ever arrived, the
model estimated 18 seconds, the narration has 10 characters. -/
def noAudioScene : Scene :=
  { id := 0
    title := "t"
    visual_description := "v"
    narration := "0123456789"
    durationInSeconds := 18 }

/-- Scene `noAudioScene` with the decoded audio present (duration 6 s). -/
def audioScene : Scene :=
  { noAudioScene with audioBuffer := some ⟨6⟩, actualDuration := some 6 }

/-! # Theorems -/

/-! ## Infrastructure: field-wise tracking of pipeline writes -/

theorem getElem?_modifyIdx (f : Scene → Scene) (rs : List Scene) (j i : ℕ) :
    (modifyIdx f rs j)[i]? = if i = j then (rs[i]?).map f else rs[i]? := by
  induction rs generalizing i j with
  | nil => simp [modifyIdx]
  | cons s rest ih =>
    cases j with
    | zero =>
      cases i with
      | zero => simp [modifyIdx]
      | succ i => simp [modifyIdx]
    | succ j =>
      cases i with
      | zero => simp [modifyIdx]
      | succ i =>
        simp only [modifyIdx, List.getElem?_cons_succ, ih j i]
        by_cases h : i = j <;> simp [h]

theorem length_modifyIdx (f : Scene → Scene) (rs : List Scene) (j : ℕ) :
    (modifyIdx f rs j).length = rs.length := by
  induction rs generalizing j with
  | nil => simp [modifyIdx]
  | cons s rest ih =>
    cases j with
    | zero => simp [modifyIdx]
    | succ j => simp [modifyIdx, ih j]

theorem length_runEvents (rs : List Scene) (evs : List AssetEvent) :
    (runEvents rs evs).length = rs.length := by
  induction evs generalizing rs with
  | nil => rfl
  | cons e evs ih =>
    show (runEvents (applyEvent rs e) evs).length = rs.length
    rw [ih]
    cases e <;> simp [applyEvent, length_modifyIdx]

theorem map_modifyIdx {β : Type} (g : Scene → β) (f : Scene → Scene)
    (hf : ∀ s, g (f s) = g s) (rs : List Scene) (j : ℕ) :
    (modifyIdx f rs j).map g = rs.map g := by
  induction rs generalizing j with
  | nil => simp [modifyIdx]
  | cons s rest ih =>
    cases j with
    | zero => simp [modifyIdx, hf]
    | succ j => simp [modifyIdx, ih j]

/-- Neither pipeline's write touches `id`, `title`, `narration`,
`visual_description` or `durationInSeconds`. -/
theorem map_id_runEvents (rs : List Scene) (evs : List AssetEvent) :
    (runEvents rs evs).map Scene.id = rs.map Scene.id := by
  induction evs generalizing rs with
  | nil => rfl
  | cons e evs ih =>
    show (runEvents (applyEvent rs e) evs).map Scene.id = rs.map Scene.id
    rw [ih]
    cases e with
    | audioSuccess j buf b64 =>
      exact map_modifyIdx Scene.id (audioSuccessUpdate buf b64) (fun s => rfl) rs j
    | imageSuccess j img =>
      exact map_modifyIdx Scene.id (imageSuccessUpdate img) (fun s => rfl) rs j

/-- Master lemma for the image field: the final `imageData` of scene `i` is its
initial value overwritten by the image writes to `i`, in order — audio writes
are invisible to it. -/
theorem runEvents_imageData (evs : List AssetEvent) (rs : List Scene) (i : ℕ) :
    ((runEvents rs evs)[i]?).map Scene.imageData =
      (rs[i]?).map (fun s => imageAfter s.imageData evs i) := by
  induction evs generalizing rs with
  | nil => rfl
  | cons e evs ih =>
    show ((runEvents (applyEvent rs e) evs)[i]?).map Scene.imageData = _
    rw [ih]
    cases e with
    | audioSuccess j buf b64 =>
      simp only [applyEvent, getElem?_modifyIdx, imageAfter, List.foldl_cons]
      by_cases h : i = j
      · subst h
        simp only [eq_self_iff_true, if_true, Option.map_map]
        exact Option.map_congr fun a _ => rfl
      · have hji : ¬ j = i := fun hh => h hh.symm
        simp [if_neg h, if_neg hji]
    | imageSuccess j img =>
      simp only [applyEvent, getElem?_modifyIdx, imageAfter, List.foldl_cons]
      by_cases h : i = j
      · subst h
        simp only [eq_self_iff_true, if_true, Option.map_map]
        exact Option.map_congr fun a _ => rfl
      · have hji : ¬ j = i := fun hh => h hh.symm
        simp [if_neg h, if_neg hji]

/-- Master lemma for the audio fields: the final audio fields of scene `i` are
the initial values overwritten by the audio writes to `i`, in order — image
writes are invisible to them.  A write sets all three fields from the same
decode (`audioBuffer = buf`, `actualDuration = buf.duration`, `audioData`). -/
theorem runEvents_audioFields (evs : List AssetEvent) (rs : List Scene) (i : ℕ) :
    ((runEvents rs evs)[i]?).map audioFieldsOf =
      (rs[i]?).map (fun s => audioAfter (audioFieldsOf s) evs i) := by
  induction evs generalizing rs with
  | nil => rfl
  | cons e evs ih =>
    show ((runEvents (applyEvent rs e) evs)[i]?).map audioFieldsOf = _
    rw [ih]
    cases e with
    | imageSuccess j img =>
      simp only [applyEvent, getElem?_modifyIdx, audioAfter, List.foldl_cons]
      by_cases h : i = j
      · subst h
        simp only [eq_self_iff_true, if_true, Option.map_map]
        exact Option.map_congr fun a _ => rfl
      · have hji : ¬ j = i := fun hh => h hh.symm
        simp [if_neg h, if_neg hji]
    | audioSuccess j buf b64 =>
      simp only [applyEvent, getElem?_modifyIdx, audioAfter, List.foldl_cons]
      by_cases h : i = j
      · subst h
        simp only [eq_self_iff_true, if_true, Option.map_map]
        exact Option.map_congr fun a _ => rfl
      · have hji : ¬ j = i := fun hh => h hh.symm
        simp [if_neg h, if_neg hji]

theorem imageAfter_of_no_write (evs : List AssetEvent) (i : ℕ)
    (h : ∀ e ∈ evs, ∀ img, e ≠ .imageSuccess i img) :
    ∀ cur, imageAfter cur evs i = cur := by
  induction evs with
  | nil => intro cur; rfl
  | cons e evs ih =>
    intro cur
    have htail : ∀ e' ∈ evs, ∀ img, e' ≠ .imageSuccess i img :=
      fun e' he' => h e' (List.mem_cons_of_mem e he')
    cases e with
    | audioSuccess j buf b64 =>
      exact ih htail cur
    | imageSuccess j img =>
      show imageAfter (if j = i then some img else cur) evs i = cur
      have hji : ¬ j = i := by
        intro hji
        exact h _ (List.mem_cons_self _ _) img (by rw [hji])
      rw [if_neg hji]
      exact ih htail cur

theorem audioAfter_of_no_write (evs : List AssetEvent) (i : ℕ)
    (h : ∀ e ∈ evs, ∀ buf b64, e ≠ .audioSuccess i buf b64) :
    ∀ cur, audioAfter cur evs i = cur := by
  induction evs with
  | nil => intro cur; rfl
  | cons e evs ih =>
    intro cur
    have htail : ∀ e' ∈ evs, ∀ buf b64, e' ≠ .audioSuccess i buf b64 :=
      fun e' he' => h e' (List.mem_cons_of_mem e he')
    cases e with
    | imageSuccess j img =>
      exact ih htail cur
    | audioSuccess j buf b64 =>
      show audioAfter (if j = i then _ else cur) evs i = cur
      have hji : ¬ j = i := by
        intro hji
        exact h _ (List.mem_cons_self _ _) buf b64 (by rw [hji])
      rw [if_neg hji]
      exact ih htail cur

theorem audioEvents_no_image_write (oA : AudioOracle) (n i : ℕ) :
    ∀ e ∈ audioEvents oA n, ∀ img, e ≠ .imageSuccess i img := by
  intro e he img
  obtain ⟨j, -, hj⟩ := List.mem_filterMap.mp he
  intro hcon
  rw [hcon] at hj
  cases hout : audioOutcome oA j with
  | ok p => rw [hout] at hj; cases hj
  | error err => rw [hout] at hj; cases hj

theorem imageEvents_no_audio_write (oI : ImageOracle) (n i : ℕ) :
    ∀ e ∈ imageEvents oI n, ∀ buf b64, e ≠ .audioSuccess i buf b64 := by
  intro e he buf b64
  obtain ⟨j, -, hj⟩ := List.mem_filterMap.mp he
  intro hcon
  rw [hcon] at hj
  cases hout : imageOutcome oI j with
  | ok p => rw [hout] at hj; cases hj
  | error err => rw [hout] at hj; cases hj

/-- An image write for scene `i` exists in the image pipeline's events only if
the retried image operation for `i` succeeded with that payload. -/
theorem imageEvents_mem_ok (oI : ImageOracle) (n i : ℕ) (img : String)
    (h : AssetEvent.imageSuccess i img ∈ imageEvents oI n) :
    i < n ∧ imageOutcome oI i = .ok img := by
  obtain ⟨j, hj, hmatch⟩ := List.mem_filterMap.mp h
  cases hout : imageOutcome oI j with
  | ok img' =>
    rw [hout] at hmatch
    simp only [Option.some.injEq, AssetEvent.imageSuccess.injEq] at hmatch
    obtain ⟨hji, himg⟩ := hmatch
    subst hji
    subst himg
    exact ⟨List.mem_range.mp hj, hout⟩
  | error err =>
    rw [hout] at hmatch
    cases hmatch

theorem imageAfter_imageEvents_err (oI : ImageOracle) (n i : ℕ) (e : String)
    (herr : imageOutcome oI i = .error e) (cur : Option String) :
    imageAfter cur (imageEvents oI n) i = cur := by
  apply imageAfter_of_no_write
  intro ev hev img hcon
  rw [hcon] at hev
  obtain ⟨-, hok⟩ := imageEvents_mem_ok oI n i img hev
  rw [herr] at hok
  cases hok

theorem audioEvents_mem_ok (oA : AudioOracle) (n i : ℕ) (buf : AudioBuffer) (b64 : String)
    (h : AssetEvent.audioSuccess i buf b64 ∈ audioEvents oA n) :
    i < n ∧ audioOutcome oA i = .ok (buf, b64) := by
  obtain ⟨j, hj, hmatch⟩ := List.mem_filterMap.mp h
  cases hout : audioOutcome oA j with
  | ok p =>
    obtain ⟨buf', b64'⟩ := p
    rw [hout] at hmatch
    simp only [Option.some.injEq, AssetEvent.audioSuccess.injEq] at hmatch
    obtain ⟨hji, hbuf, hb64⟩ := hmatch
    subst hji
    subst hbuf
    subst hb64
    exact ⟨List.mem_range.mp hj, hout⟩
  | error err =>
    rw [hout] at hmatch
    cases hmatch

theorem audioAfter_audioEvents_err (oA : AudioOracle) (n i : ℕ) (e : String)
    (herr : audioOutcome oA i = .error e)
    (cur : Option AudioBuffer × Option ℚ × Option String) :
    audioAfter cur (audioEvents oA n) i = cur := by
  apply audioAfter_of_no_write
  intro ev hev buf b64 hcon
  rw [hcon] at hev
  obtain ⟨-, hok⟩ := audioEvents_mem_ok oA n i buf b64 hev
  rw [herr] at hok
  cases hok

/-- A successful retried run returns the value of some successful call. -/
theorem retryOperation_ok {E A : Type} (fn : ℕ → Except E A) :
    ∀ (r c d : ℕ) (a : A),
      (retryOperation fn c r d).result = .ok a → ∃ k, fn k = .ok a := by
  intro r
  induction r with
  | zero =>
    intro c d a h
    rw [retryOperation] at h
    cases hfc : fn c with
    | ok a' =>
      rw [hfc] at h
      have h' : Except.ok a' = Except.ok a := h
      cases h'
      exact ⟨c, hfc⟩
    | error e =>
      rw [hfc] at h
      have h' : (Except.error e : Except E A) = Except.ok a := h
      cases h'
  | succ r ih =>
    intro c d a h
    rw [retryOperation] at h
    cases hfc : fn c with
    | ok a' =>
      rw [hfc] at h
      have h' : Except.ok a' = Except.ok a := h
      cases h'
      exact ⟨c, hfc⟩
    | error e =>
      rw [hfc] at h
      exact ih (c + 1) (d * 2) a h

/-- A successful image outcome is a nonempty payload (`imageLoop` retries an
empty `imageData` as a failure). -/
theorem imageOutcome_ok_nonempty (oI : ImageOracle) (i : ℕ) (img : String)
    (h : imageOutcome oI i = .ok img) : img.isEmpty = false := by
  obtain ⟨k, hk⟩ := retryOperation_ok (imageAttempt oI i) IMAGE_RETRIES 0 IMAGE_INITIAL_DELAY img h
  unfold imageAttempt at hk
  cases hcall : oI i k with
  | ok s =>
    rw [hcall] at hk
    have hk' : (if s.isEmpty = true then
        (Except.error "Generated image data is empty" : Except String String)
      else Except.ok s) = Except.ok img := hk
    by_cases hs : s.isEmpty = true
    · rw [if_pos hs] at hk'
      cases hk'
    · rw [if_neg hs] at hk'
      have h2 : Except.ok s = Except.ok img := hk'
      cases h2
      cases hse : img.isEmpty with
      | true => exact absurd hse hs
      | false => rfl
  | error e =>
    rw [hcall] at hk
    have hk' : (Except.error e : Except String String) = Except.ok img := hk
    cases hk'

theorem assignIdsFrom_map_id (raw : List RawScene) :
    ∀ i, (assignIdsFrom i raw).map Scene.id = List.range' i raw.length := by
  induction raw with
  | nil => intro i; rfl
  | cons s rest ih =>
    intro i
    show Scene.id (mkScene i s) :: (assignIdsFrom (i + 1) rest).map Scene.id = _
    rw [ih (i + 1)]
    rfl

theorem assignIds_map_id (raw : List RawScene) :
    (assignIds raw).map Scene.id = List.range raw.length := by
  rw [assignIds, assignIdsFrom_map_id raw 0, List.range_eq_range']

/-- Scenes fresh from id assignment carry no generated assets. -/
theorem assignIds_assets_unset (raw : List RawScene) :
    ∀ s ∈ assignIds raw, s.imageData = none ∧ s.audioBuffer = none ∧
      s.actualDuration = none ∧ s.audioData = none := by
  rw [assignIds]
  generalize 0 = i
  induction raw generalizing i with
  | nil => intro s hs; cases hs
  | cons r rest ih =>
    intro s hs
    rcases List.mem_cons.mp hs with h | h
    · subst h
      exact ⟨rfl, rfl, rfl, rfl⟩
    · exact ih (i + 1) s h

theorem imageAfter_append (cur : Option String) (a b : List AssetEvent) (i : ℕ) :
    imageAfter cur (a ++ b) i = imageAfter (imageAfter cur a i) b i := by
  unfold imageAfter
  exact List.foldl_append _ _ _ _

theorem audioAfter_append (cur : Option AudioBuffer × Option ℚ × Option String)
    (a b : List AssetEvent) (i : ℕ) :
    audioAfter cur (a ++ b) i = audioAfter (audioAfter cur a i) b i := by
  unfold audioAfter
  exact List.foldl_append _ _ _ _

theorem imageEvents_succ (oI : ImageOracle) (n : ℕ) :
    imageEvents oI (n + 1) = imageEvents oI n ++
      (match imageOutcome oI n with
        | .ok img => [AssetEvent.imageSuccess n img]
        | .error _ => []) := by
  unfold imageEvents
  rw [List.range_succ, List.filterMap_append]
  congr 1
  cases hout : imageOutcome oI n <;> simp [hout]

theorem audioEvents_succ (oA : AudioOracle) (n : ℕ) :
    audioEvents oA (n + 1) = audioEvents oA n ++
      (match audioOutcome oA n with
        | .ok p => [AssetEvent.audioSuccess n p.1 p.2]
        | .error _ => []) := by
  unfold audioEvents
  rw [List.range_succ, List.filterMap_append]
  congr 1
  cases hout : audioOutcome oA n <;> simp [hout]

/-- If the retried image operation for scene `i` succeeded, the image
pipeline's writes leave scene `i`'s image field at the returned payload. -/
theorem imageAfter_imageEvents_ok (oI : ImageOracle) (i : ℕ) (img : String)
    (hok : imageOutcome oI i = .ok img) :
    ∀ n, i < n → ∀ cur, imageAfter cur (imageEvents oI n) i = some img := by
  intro n
  induction n with
  | zero => omega
  | succ n ih =>
    intro hi cur
    rw [imageEvents_succ, imageAfter_append]
    rcases Nat.lt_succ_iff_lt_or_eq.mp hi with h | h
    · rw [ih h cur]
      cases hout : imageOutcome oI n with
      | ok im =>
        show imageAfter (some img) [AssetEvent.imageSuccess n im] i = some img
        have hni : ¬ n = i := by omega
        simp [imageAfter, hni]
      | error e => rfl
    · subst h
      have hA : imageAfter cur (imageEvents oI i) i = cur := by
        apply imageAfter_of_no_write
        intro e he img' hcon
        rw [hcon] at he
        obtain ⟨hlt, -⟩ := imageEvents_mem_ok oI i i img' he
        omega
      rw [hA, hok]
      simp [imageAfter]

/-- If the retried audio operation for scene `i` succeeded, the audio
pipeline's writes leave scene `i`'s audio fields at the returned decode. -/
theorem audioAfter_audioEvents_ok (oA : AudioOracle) (i : ℕ) (buf : AudioBuffer) (b64 : String)
    (hok : audioOutcome oA i = .ok (buf, b64)) :
    ∀ n, i < n → ∀ cur,
      audioAfter cur (audioEvents oA n) i = (some buf, some buf.duration, some b64) := by
  intro n
  induction n with
  | zero => omega
  | succ n ih =>
    intro hi cur
    rw [audioEvents_succ, audioAfter_append]
    rcases Nat.lt_succ_iff_lt_or_eq.mp hi with h | h
    · rw [ih h cur]
      cases hout : audioOutcome oA n with
      | ok p =>
        show audioAfter _ [AssetEvent.audioSuccess n p.1 p.2] i = _
        have hni : ¬ n = i := by omega
        simp [audioAfter, hni]
      | error e => rfl
    · subst h
      have hA : audioAfter cur (audioEvents oA i) i = cur := by
        apply audioAfter_of_no_write
        intro e he buf' b64' hcon
        rw [hcon] at he
        obtain ⟨hlt, -⟩ := audioEvents_mem_ok oA i i buf' b64' he
        omega
      rw [hA, hok]
      simp [audioAfter]

/-- The image field after both pipelines is governed by the image pipeline
alone. -/
theorem runPipelines_imageData (rs : List Scene) (oA : AudioOracle) (oI : ImageOracle) (i : ℕ) :
    ((runPipelines rs oA oI)[i]?).map Scene.imageData =
      (rs[i]?).map (fun s => imageAfter s.imageData (imageEvents oI rs.length) i) := by
  unfold runPipelines
  rw [runEvents_imageData]
  have h1 : (fun s => imageAfter s.imageData (imageEvents oI rs.length) i) =
      (fun v => imageAfter v (imageEvents oI rs.length) i) ∘ Scene.imageData := rfl
  rw [h1, ← Option.map_map, runEvents_imageData, Option.map_map]
  apply Option.map_congr
  intro s _
  show imageAfter (imageAfter s.imageData (audioEvents oA rs.length) i)
      (imageEvents oI rs.length) i = imageAfter s.imageData (imageEvents oI rs.length) i
  rw [imageAfter_of_no_write (audioEvents oA rs.length) i
    (audioEvents_no_image_write oA rs.length i) s.imageData]

/-- The audio fields after both pipelines are governed by the audio pipeline
alone. -/
theorem runPipelines_audioFields (rs : List Scene) (oA : AudioOracle) (oI : ImageOracle) (i : ℕ) :
    ((runPipelines rs oA oI)[i]?).map audioFieldsOf =
      (rs[i]?).map (fun s => audioAfter (audioFieldsOf s) (audioEvents oA rs.length) i) := by
  unfold runPipelines
  rw [runEvents_audioFields]
  have h1 : ((runEvents rs (audioEvents oA rs.length))[i]?).map
      (fun s => audioAfter (audioFieldsOf s) (imageEvents oI rs.length) i) =
      ((runEvents rs (audioEvents oA rs.length))[i]?).map audioFieldsOf :=
    Option.map_congr fun s _ =>
      audioAfter_of_no_write (imageEvents oI rs.length) i
        (imageEvents_no_audio_write oI rs.length i) _
  rw [h1, runEvents_audioFields]

/-! ## C3 — image style selection -/

/-- C3, counterexample: in a 5-scene run the first scene's image prompt uses
the informational (infographic) style, not the high-impact style — even though
the progress label shown for that scene claims "Pop Art". -/
theorem C3_cex_first_scene_not_high_impact :
    selectImageStyle 0 5 = .infographic ∧
    selectImageStyle 0 5 ≠ .popArt ∧
    statusStyleName 0 5 = "视觉冲击 (Pop Art)" :=
  ⟨rfl, by decide, rfl⟩

/-- C3, amended: the style of the image-generation prompt is selected by
position alone and deterministically, but only the LAST scene
(`sceneIndex = totalScenes - 1`) uses the distinct high-impact style; every
other scene — including the first whenever there are at least two scenes —
uses the uniform informational style.  (Only the progress label in the
asset-generator UI treats the first scene as high-impact.) -/
theorem C3_selectImageStyle_last_only (i n : ℕ) :
    (selectImageStyle i n = .popArt ↔ (i : ℤ) = (n : ℤ) - 1) ∧
    (selectImageStyle i n = .infographic ↔ (i : ℤ) ≠ (n : ℤ) - 1) ∧
    (2 ≤ n → selectImageStyle 0 n = .infographic) ∧
    (1 ≤ n → selectImageStyle (n - 1) n = .popArt) := by
  refine ⟨?_, ?_, ?_, ?_⟩
  · unfold selectImageStyle
    split <;> simp_all
  · unfold selectImageStyle
    split <;> simp_all
  · intro hn
    unfold selectImageStyle
    rw [if_neg]
    omega
  · intro hn
    unfold selectImageStyle
    rw [if_pos]
    omega

/-- Witness for `C3_selectImageStyle_last_only` at `i = 3`, `n = 7`. -/
theorem C3_selectImageStyle_last_only_witness :
    (selectImageStyle 3 7 = .popArt ↔ (3 : ℤ) = (7 : ℤ) - 1) ∧
    (selectImageStyle 3 7 = .infographic ↔ (3 : ℤ) ≠ (7 : ℤ) - 1) ∧
    (2 ≤ 7 → selectImageStyle 0 7 = .infographic) ∧
    (1 ≤ 7 → selectImageStyle (7 - 1) 7 = .popArt) :=
  C3_selectImageStyle_last_only 3 7

/-! ## C4 — exponential-backoff retry wrapper -/

/-- On an operation that fails at every attempt, `retryOperation` starting at
call index `c` with `r` retries and delay `d` performs `r + 1` calls, waits
`d, 2d, …, 2^(r-1)·d` between them, and returns the error of the last call. -/
theorem retryOperation_allFail {E A : Type} (fn : ℕ → Except E A) (errs : ℕ → E)
    (hfail : ∀ k, fn k = .error (errs k)) :
    ∀ (r c d : ℕ),
      retryOperation fn c r d =
        ⟨.error (errs (c + r)), (List.range r).map (fun k => d * 2 ^ k), r + 1⟩ := by
  intro r
  induction r with
  | zero =>
    intro c d
    simp [retryOperation, hfail c]
  | succ r ih =>
    intro c d
    simp only [retryOperation, hfail c, ih (c + 1) (d * 2), RetryRun.mk.injEq]
    refine ⟨by rw [show c + 1 + r = c + (r + 1) from by omega], ?_, trivial⟩
    rw [List.range_succ_eq_map, List.map_cons, List.map_map]
    refine List.cons_eq_cons.mpr ⟨by ring, List.map_congr_left ?_⟩
    intro a _
    simp only [Function.comp_apply, pow_succ]
    ring

/-- C4: for every operation `fn`, retry count `r` and initial delay `d`, an
operation failing on every attempt is invoked exactly `r + 1` times, with
waits `d, 2d, 4d, …` between attempts, and the final attempt's failure
propagates unchanged; the pipeline instantiates the wrapper with `r = 2` and
initial delays 1000 ms (speech) and 2000 ms (image). -/
theorem C4_retry_exponential_backoff {E A : Type} (fn : ℕ → Except E A)
    (errs : ℕ → E) (hfail : ∀ k, fn k = .error (errs k)) (r d : ℕ) :
    ((retryOperation fn 0 r d).calls = r + 1 ∧
     (retryOperation fn 0 r d).waits = (List.range r).map (fun k => d * 2 ^ k) ∧
     (retryOperation fn 0 r d).result = .error (errs r)) ∧
    (AUDIO_RETRIES = 2 ∧ AUDIO_INITIAL_DELAY = 1000 ∧
     IMAGE_RETRIES = 2 ∧ IMAGE_INITIAL_DELAY = 2000) := by
  have h := retryOperation_allFail fn errs hfail r 0 d
  rw [h]
  exact ⟨⟨rfl, rfl, by rw [Nat.zero_add]⟩, rfl, rfl, rfl, rfl⟩

/-- Witness for `C4_retry_exponential_backoff`: an always-failing operation
with the speech pipeline's parameters (`r = 2`, `d = 1000`) is called 3 times,
waits 1000 ms then 2000 ms, and surfaces the error of attempt 2. -/
theorem C4_retry_exponential_backoff_witness :
    ((retryOperation (fun k => (.error k : Except ℕ ℕ)) 0 2 1000).calls = 2 + 1 ∧
     (retryOperation (fun k => (.error k : Except ℕ ℕ)) 0 2 1000).waits =
       (List.range 2).map (fun k => 1000 * 2 ^ k) ∧
     (retryOperation (fun k => (.error k : Except ℕ ℕ)) 0 2 1000).result = .error 2) ∧
    (AUDIO_RETRIES = 2 ∧ AUDIO_INITIAL_DELAY = 1000 ∧
     IMAGE_RETRIES = 2 ∧ IMAGE_INITIAL_DELAY = 2000) :=
  C4_retry_exponential_backoff (fun k => .error k) (fun k => k) (fun _ => rfl) 2 1000

/-! ## C9 — TTS input whitelist -/

/-- C9, counterexample: the text submitted to the speech model is NOT made of
whitelist characters only — the fixed appended pause marker
`" [medium pause]。"` contains `'['`, which the whitelist rejects. -/
theorem C9_cex_pause_marker_outside_whitelist :
    '[' ∈ ttsSubmittedText "你好".toList ∧ isWhitelisted '[' = false := by
  decide

/-- C9, amended: every character of the input outside the whitelist is
REPLACED BY A SPACE (not deleted) before submission, so the input-derived part
of the submission consists of whitelist characters only and has the input's
length; the submission itself is that cleaned text followed by the fixed pause
marker `" [medium pause]。"`, whose brackets are the only non-whitelist
characters that can reach the speech model. -/
theorem C9_tts_whitelist_cleaning (text : List Char) :
    (∀ c ∈ cleanForTTS text, isWhitelisted c = true) ∧
    (cleanForTTS text).length = text.length ∧
    ttsSubmittedText text = cleanForTTS text ++ pauseSuffix ∧
    (∀ c ∈ ttsSubmittedText text, isWhitelisted c = true ∨ c ∈ pauseSuffix) := by
  have hclean : ∀ c ∈ cleanForTTS text, isWhitelisted c = true := by
    intro c hc
    obtain ⟨a, -, ha⟩ := List.mem_map.mp hc
    by_cases h : isWhitelisted a = true
    · rw [if_pos h] at ha
      rw [← ha]
      exact h
    · rw [if_neg h] at ha
      rw [← ha]
      decide
  refine ⟨hclean, by simp [cleanForTTS], rfl, ?_⟩
  intro c hc
  rcases List.mem_append.mp hc with h | h
  · exact Or.inl (hclean c h)
  · exact Or.inr h

/-- Witness for `C9_tts_whitelist_cleaning`: in the cleaned form of `"#a"`
the surviving character `'a'` is whitelisted. -/
theorem C9_tts_whitelist_cleaning_witness : isWhitelisted 'a' = true :=
  (C9_tts_whitelist_cleaning ['#', 'a']).1 'a' (by decide)

/-! ## C2 — scene timing model across consumers -/

/-- C2, counterexample: the interactive player does not use the
`actualDuration ‖ durationInSeconds ‖ 5` fallback chain.  For a scene with no
decoded audio, `durationInSeconds = 18` and a 10-character narration, the
compositors show it for 12 s (12.2 s with buffer) while the player's fallback
timer shows it for 3 s — a disagreement not explained by the 0.2 s buffer. -/
theorem C2_cex_player_fallback_disagrees :
    effectiveDuration noAudioScene = 12 ∧
    sceneDurationWithBuffer noAudioScene = 61 / 5 ∧
    playerSceneDurationMs noAudioScene = 3000 ∧
    playerSceneDurationMs noAudioScene ≠ effectiveDuration noAudioScene * 1000 ∧
    playerSceneDurationMs noAudioScene ≠ sceneDurationWithBuffer noAudioScene * 1000 := by
  have hlen : ("0123456789" : String).length = 10 := rfl
  refine ⟨?_, ?_, ?_, ?_, ?_⟩ <;>
    simp only [effectiveDuration, sceneDurationWithBuffer, playerSceneDurationMs, rawDuration,
      jsOrQ, noAudioScene, playbackSpeed, hlen] <;>
    norm_num

/-- C2, amended: for any scene whose audio decoded (buffer present,
`actualDuration = d = buffer.duration ≠ 0`), every consumer derives the same
visual duration `d / 1.5`: the plain compositor shows `d / 1.5` seconds,
the buffered compositor `d / 1.5 + 0.2` seconds (the one fixed safety
buffer), and the player ends the scene after `d / 1.5` seconds
(`(d / 1.5) · 1000` ms).  The `durationInSeconds`/5 s fallback chain is used
only by the compositors; the player falls back to
`max(3000, 200·narrationLength)` ms instead. -/
theorem C2_effective_duration_law (s : Scene) (buf : AudioBuffer)
    (hb : s.audioBuffer = some buf) (ha : s.actualDuration = some buf.duration)
    (hnz : buf.duration ≠ 0) :
    effectiveDuration s = buf.duration / playbackSpeed ∧
    sceneDurationWithBuffer s = buf.duration / playbackSpeed + 1 / 5 ∧
    playerSceneDurationMs s = buf.duration / playbackSpeed * 1000 := by
  have hraw : rawDuration s = buf.duration := by
    unfold rawDuration jsOrQ
    rw [ha]
    simp [hnz]
  refine ⟨?_, ?_, ?_⟩
  · unfold effectiveDuration
    rw [hraw]
  · unfold sceneDurationWithBuffer effectiveDuration
    rw [hraw]
  · unfold playerSceneDurationMs
    rw [hb]

/-- Witness for `C2_effective_duration_law` on a scene with 6 s of decoded
audio: all three consumers yield the 4 s visual duration (± the buffer). -/
theorem C2_effective_duration_law_witness :
    effectiveDuration audioScene = (AudioBuffer.mk 6).duration / playbackSpeed ∧
    sceneDurationWithBuffer audioScene = (AudioBuffer.mk 6).duration / playbackSpeed + 1 / 5 ∧
    playerSceneDurationMs audioScene = (AudioBuffer.mk 6).duration / playbackSpeed * 1000 :=
  C2_effective_duration_law audioScene ⟨6⟩ rfl rfl (by norm_num)

/-! ## C8 — field-level ownership of the shared scene array -/

/-- C8: the image pipeline writes only `imageData` and the audio pipeline
writes only `audioBuffer`/`actualDuration`/`audioData`.  Concretely: (1) an
audio write leaves `imageData` untouched; (2) an image write leaves all audio
fields untouched; (3) after both pipelines the audio fields of every scene are
exactly those produced by the audio pipeline alone; (4) likewise the image
field and the image pipeline; (5) if every remote image call for scene `i`
fails, after both pipelines scene `i`'s `imageData` is unchanged (unset if it
started unset), its audio fields being whatever the audio pipeline produced;
(6) symmetrically for continuous audio failure. -/
theorem C8_pipeline_field_ownership :
    (∀ (buf : AudioBuffer) (b64 : String) (s : Scene),
      (audioSuccessUpdate buf b64 s).imageData = s.imageData) ∧
    (∀ (img : String) (s : Scene),
      (imageSuccessUpdate img s).audioBuffer = s.audioBuffer ∧
      (imageSuccessUpdate img s).actualDuration = s.actualDuration ∧
      (imageSuccessUpdate img s).audioData = s.audioData) ∧
    (∀ (rs : List Scene) (oA : AudioOracle) (oI : ImageOracle) (i : ℕ),
      ((runPipelines rs oA oI)[i]?).map audioFieldsOf =
        ((runEvents rs (audioEvents oA rs.length))[i]?).map audioFieldsOf) ∧
    (∀ (rs : List Scene) (oA : AudioOracle) (oI : ImageOracle) (i : ℕ),
      ((runPipelines rs oA oI)[i]?).map Scene.imageData =
        ((runEvents rs (imageEvents oI rs.length))[i]?).map Scene.imageData) ∧
    (∀ (rs : List Scene) (oA : AudioOracle) (oI : ImageOracle) (i : ℕ) (errs : ℕ → String),
      (∀ k, oI i k = .error (errs k)) →
      ((runPipelines rs oA oI)[i]?).map Scene.imageData = (rs[i]?).map Scene.imageData) ∧
    (∀ (rs : List Scene) (oA : AudioOracle) (oI : ImageOracle) (i : ℕ) (errs : ℕ → String),
      (∀ k, oA i k = .error (errs k)) →
      ((runPipelines rs oA oI)[i]?).map audioFieldsOf = (rs[i]?).map audioFieldsOf) := by
  refine ⟨fun buf b64 s => rfl, fun img s => ⟨rfl, rfl, rfl⟩, ?_, ?_, ?_, ?_⟩
  · intro rs oA oI i
    rw [runPipelines_audioFields, runEvents_audioFields]
  · intro rs oA oI i
    rw [runPipelines_imageData, runEvents_imageData]
  · intro rs oA oI i errs hfail
    have hattempt : ∀ k, imageAttempt oI i k = .error (errs k) := by
      intro k
      unfold imageAttempt
      rw [hfail k]
    have herr : imageOutcome oI i = .error (errs IMAGE_RETRIES) := by
      unfold imageOutcome
      rw [retryOperation_allFail (imageAttempt oI i) errs hattempt IMAGE_RETRIES 0
        IMAGE_INITIAL_DELAY]
      simp
    rw [runPipelines_imageData]
    exact Option.map_congr fun s _ =>
      imageAfter_imageEvents_err oI rs.length i (errs IMAGE_RETRIES) herr s.imageData
  · intro rs oA oI i errs hfail
    have herr : audioOutcome oA i = .error (errs AUDIO_RETRIES) := by
      unfold audioOutcome
      rw [retryOperation_allFail (oA i) errs hfail AUDIO_RETRIES 0 AUDIO_INITIAL_DELAY]
      simp
    rw [runPipelines_audioFields]
    exact Option.map_congr fun s _ =>
      audioAfter_audioEvents_err oA rs.length i (errs AUDIO_RETRIES) herr _

/-- Witness for `C8_pipeline_field_ownership`: with both oracles failing every
attempt for the single scene, the image field stays unset. -/
theorem C8_pipeline_field_ownership_witness :
    ((runPipelines [noAudioScene] (fun _ _ => .error "a") (fun _ _ => .error "b"))[0]?).map
        Scene.imageData =
      (([noAudioScene] : List Scene)[0]?).map Scene.imageData :=
  C8_pipeline_field_ownership.2.2.2.2.1 [noAudioScene] (fun _ _ => .error "a")
    (fun _ _ => .error "b") 0 (fun _ => "b") (fun _ => rfl)

theorem length_assignIds (raw : List RawScene) : (assignIds raw).length = raw.length := by
  have h := congrArg List.length (assignIds_map_id raw)
  simpa using h

theorem producedScenes_length (raw : List RawScene) (oA : AudioOracle) (oI : ImageOracle) :
    (producedScenes raw oA oI).length = raw.length := by
  unfold producedScenes runPipelines
  rw [length_runEvents, length_runEvents, length_assignIds]

/-- The final image field of scene `i` is exactly the image pipeline's writes
replayed over the unset initial value. -/
theorem producedScenes_imageData_spec (raw : List RawScene) (oA : AudioOracle)
    (oI : ImageOracle) (i : ℕ) (hi : i < raw.length) :
    ∃ s, (producedScenes raw oA oI)[i]? = some s ∧
      s.imageData = imageAfter none (imageEvents oI raw.length) i := by
  have hi2 : i < (producedScenes raw oA oI).length := by
    rw [producedScenes_length]; exact hi
  have hi3 : i < (assignIds raw).length := by
    rw [length_assignIds]; exact hi
  refine ⟨(producedScenes raw oA oI)[i], List.getElem?_eq_getElem hi2, ?_⟩
  have h2 := runPipelines_imageData (assignIds raw) oA oI i
  rw [length_assignIds] at h2
  have h1 : (producedScenes raw oA oI)[i]? = some ((producedScenes raw oA oI)[i]) :=
    List.getElem?_eq_getElem hi2
  have h3 : (assignIds raw)[i]? = some ((assignIds raw)[i]) := List.getElem?_eq_getElem hi3
  rw [show (runPipelines (assignIds raw) oA oI)[i]? = (producedScenes raw oA oI)[i]? from rfl,
    h1, h3] at h2
  simp only [Option.map_some'] at h2
  have h4 := (assignIds_assets_unset raw _ (List.getElem_mem hi3)).1
  rw [h4] at h2
  exact Option.some.inj h2

/-- The final audio fields of scene `i` are exactly the audio pipeline's
writes replayed over the unset initial values. -/
theorem producedScenes_audioFields_spec (raw : List RawScene) (oA : AudioOracle)
    (oI : ImageOracle) (i : ℕ) (hi : i < raw.length) :
    ∃ s, (producedScenes raw oA oI)[i]? = some s ∧
      audioFieldsOf s = audioAfter (none, none, none) (audioEvents oA raw.length) i := by
  have hi2 : i < (producedScenes raw oA oI).length := by
    rw [producedScenes_length]; exact hi
  have hi3 : i < (assignIds raw).length := by
    rw [length_assignIds]; exact hi
  refine ⟨(producedScenes raw oA oI)[i], List.getElem?_eq_getElem hi2, ?_⟩
  have h2 := runPipelines_audioFields (assignIds raw) oA oI i
  rw [length_assignIds] at h2
  have h1 : (producedScenes raw oA oI)[i]? = some ((producedScenes raw oA oI)[i]) :=
    List.getElem?_eq_getElem hi2
  have h3 : (assignIds raw)[i]? = some ((assignIds raw)[i]) := List.getElem?_eq_getElem hi3
  rw [show (runPipelines (assignIds raw) oA oI)[i]? = (producedScenes raw oA oI)[i]? from rfl,
    h1, h3] at h2
  simp only [Option.map_some'] at h2
  obtain ⟨-, hbuf, hdur, hdata⟩ := assignIds_assets_unset raw _ (List.getElem_mem hi3)
  rw [show audioFieldsOf ((assignIds raw)[i]) = (none, none, none) from by
    unfold audioFieldsOf; rw [hbuf, hdur, hdata]] at h2
  exact Option.some.inj h2

/-! ## C5 — total-failure gate and handoff -/

/-- C5: after both pipelines finish, the run is reported as a fatal total
failure (no handoff to the consumer) exactly when no scene obtained a truthy
image and no scene obtained a decoded audio buffer; in particular it is total
failure when every scene's retried audio and image operations failed, and a
single successful image (or audio) outcome for any scene index forces handoff
with the produced scene list intact — for either value of the final-save
success flag, i.e. even when the final full save fails. -/
theorem C5_total_failure_gate (raw : List RawScene) (oA : AudioOracle) (oI : ImageOracle)
    (saveOk : Bool) :
    (finalize (producedScenes raw oA oI) saveOk = .totalFailure ↔
      validImages (producedScenes raw oA oI) = 0 ∧
      validAudio (producedScenes raw oA oI) = 0) ∧
    ((∀ i, ∃ e, audioOutcome oA i = .error e) →
     (∀ i, ∃ e, imageOutcome oI i = .error e) →
      finalize (producedScenes raw oA oI) saveOk = .totalFailure) ∧
    (∀ i img, i < raw.length → imageOutcome oI i = .ok img →
      finalize (producedScenes raw oA oI) saveOk =
        .handoff (producedScenes raw oA oI) saveOk) ∧
    (∀ i buf b64, i < raw.length → audioOutcome oA i = .ok (buf, b64) →
      finalize (producedScenes raw oA oI) saveOk =
        .handoff (producedScenes raw oA oI) saveOk) := by
  have hiff : finalize (producedScenes raw oA oI) saveOk = .totalFailure ↔
      validImages (producedScenes raw oA oI) = 0 ∧
      validAudio (producedScenes raw oA oI) = 0 := by
    unfold finalize
    by_cases h : validImages (producedScenes raw oA oI) = 0 ∧
        validAudio (producedScenes raw oA oI) = 0
    · rw [if_pos h]
      exact ⟨fun _ => h, fun _ => rfl⟩
    · rw [if_neg h]
      exact ⟨fun hcon => FinalOutcome.noConfusion hcon, fun hc => absurd hc h⟩
  refine ⟨hiff, ?_, ?_, ?_⟩
  · intro hA hI
    have himg : ∀ s ∈ producedScenes raw oA oI, s.imageData = none := by
      intro s hs
      obtain ⟨i, hi, hget⟩ := List.mem_iff_getElem.mp hs
      have hilen : i < raw.length := by
        rw [← producedScenes_length raw oA oI]; exact hi
      obtain ⟨s', hs', hfield⟩ := producedScenes_imageData_spec raw oA oI i hilen
      have hss' : s' = s := by
        rw [List.getElem?_eq_getElem hi, hget] at hs'
        exact (Option.some.inj hs').symm
      obtain ⟨e, herr⟩ := hI i
      rw [hss'] at hfield
      rw [hfield, imageAfter_imageEvents_err oI raw.length i e herr]
    have haud : ∀ s ∈ producedScenes raw oA oI, s.audioBuffer = none := by
      intro s hs
      obtain ⟨i, hi, hget⟩ := List.mem_iff_getElem.mp hs
      have hilen : i < raw.length := by
        rw [← producedScenes_length raw oA oI]; exact hi
      obtain ⟨s', hs', hfield⟩ := producedScenes_audioFields_spec raw oA oI i hilen
      have hss' : s' = s := by
        rw [List.getElem?_eq_getElem hi, hget] at hs'
        exact (Option.some.inj hs').symm
      obtain ⟨e, herr⟩ := hA i
      rw [hss'] at hfield
      rw [audioAfter_audioEvents_err oA raw.length i e herr] at hfield
      exact congrArg Prod.fst hfield
    refine hiff.mpr ⟨List.countP_eq_zero.mpr ?_, List.countP_eq_zero.mpr ?_⟩
    · intro s hs
      simp [truthyStr, himg s hs]
    · intro s hs
      simp [haud s hs]
  · intro i img hi hok
    obtain ⟨s', hs', hfield⟩ := producedScenes_imageData_spec raw oA oI i hi
    have hsome : s'.imageData = some img := by
      rw [hfield, imageAfter_imageEvents_ok oI i img hok raw.length hi]
    have hmem : s' ∈ producedScenes raw oA oI := by
      have hi2 : i < (producedScenes raw oA oI).length := by
        rw [producedScenes_length]; exact hi
      rw [List.getElem?_eq_getElem hi2] at hs'
      rw [← Option.some.inj hs']
      exact List.getElem_mem hi2
    have htruthy : truthyStr s'.imageData = true := by
      rw [hsome]
      show (!img.isEmpty) = true
      rw [imageOutcome_ok_nonempty oI i img hok]
      rfl
    have hpos : 0 < validImages (producedScenes raw oA oI) :=
      List.countP_pos_iff.mpr ⟨s', hmem, htruthy⟩
    have hne : ¬(validImages (producedScenes raw oA oI) = 0 ∧
        validAudio (producedScenes raw oA oI) = 0) := by
      intro hc
      exact Nat.lt_irrefl 0 (hc.1 ▸ hpos)
    unfold finalize
    rw [if_neg hne]
  · intro i buf b64 hi hok
    obtain ⟨s', hs', hfield⟩ := producedScenes_audioFields_spec raw oA oI i hi
    have hsome : s'.audioBuffer = some buf := by
      rw [audioAfter_audioEvents_ok oA i buf b64 hok raw.length hi] at hfield
      exact congrArg Prod.fst hfield
    have hmem : s' ∈ producedScenes raw oA oI := by
      have hi2 : i < (producedScenes raw oA oI).length := by
        rw [producedScenes_length]; exact hi
      rw [List.getElem?_eq_getElem hi2] at hs'
      rw [← Option.some.inj hs']
      exact List.getElem_mem hi2
    have htruthy : s'.audioBuffer.isSome = true := by
      rw [hsome]; rfl
    have hpos : 0 < validAudio (producedScenes raw oA oI) :=
      List.countP_pos_iff.mpr ⟨s', hmem, htruthy⟩
    have hne : ¬(validImages (producedScenes raw oA oI) = 0 ∧
        validAudio (producedScenes raw oA oI) = 0) := by
      intro hc
      exact Nat.lt_irrefl 0 (hc.2 ▸ hpos)
    unfold finalize
    rw [if_neg hne]

/-- Witness for `C5_total_failure_gate` on a single-scene run: with both
oracles failing every attempt the outcome is `totalFailure`; with the image
oracle succeeding, handoff occurs even with the final save failing. -/
theorem C5_total_failure_gate_witness :
    finalize (producedScenes [⟨"t", "v", "n", 15⟩] (fun _ _ => .error "x")
        (fun _ _ => .error "y")) false = .totalFailure ∧
    finalize (producedScenes [⟨"t", "v", "n", 15⟩] (fun _ _ => .error "x")
        (fun _ _ => .ok "img")) false =
      .handoff (producedScenes [⟨"t", "v", "n", 15⟩] (fun _ _ => .error "x")
        (fun _ _ => .ok "img")) false := by
  constructor
  · exact (C5_total_failure_gate [⟨"t", "v", "n", 15⟩] (fun _ _ => .error "x")
      (fun _ _ => .error "y") false).2.1
      (fun i => ⟨"x", rfl⟩) (fun i => ⟨"y", rfl⟩)
  · exact (C5_total_failure_gate [⟨"t", "v", "n", 15⟩] (fun _ _ => .error "x")
      (fun _ _ => .ok "img") false).2.2.1 0 "img" (by decide) rfl

/-! ## C7 — script extraction -/

theorem head?_mem {α : Type} {l : List α} {a : α} (h : l.head? = some a) : a ∈ l := by
  cases l with
  | nil => cases h
  | cons b t =>
    rw [← Option.some.inj h]
    exact List.mem_cons_self b t

theorem swc_head_ne {p : Char} {ps : List Char} (c : Char) (rest : List Char)
    (hc : ¬ p = c) : startsWithChars (p :: ps) (c :: rest) = false := by
  show (decide (p = c) && startsWithChars ps rest) = false
  rw [decide_eq_false hc, Bool.false_and]

theorem swc_fenceClose_false (rest : List Char)
    (h : ∀ c, rest.head? = some c → c ≠ '`') :
    startsWithChars fenceClose rest = false := by
  cases rest with
  | nil => rfl
  | cons r rest' =>
    exact swc_head_ne r rest' (fun he => h r rfl he.symm)

theorem swc_fenceNlClose_false (a : Char) (rest : List Char) (ha : a ≠ '`')
    (hrest : ∀ c, rest.head? = some c → c ≠ '`') :
    startsWithChars fenceNlClose (a :: rest) = false := by
  by_cases han : a = '\n'
  · subst han
    show (decide (('\n' : Char) = '\n') && startsWithChars fenceClose rest) = false
    rw [decide_eq_true rfl, Bool.true_and]
    exact swc_fenceClose_false rest hrest
  · exact swc_head_ne a rest (fun he => han he.symm)

/-- A text containing no backtick passes through the fence-stripping replace
unchanged. -/
theorem stripFencesAux_no_backtick :
    ∀ (l : List Char) (fuel : ℕ), (∀ c ∈ l, c ≠ '`') → stripFencesAux fuel l = l := by
  intro l
  induction l with
  | nil => intro fuel h; cases fuel <;> rfl
  | cons c rest ih =>
    intro fuel h
    cases fuel with
    | zero => rfl
    | succ fuel =>
      have hc : c ≠ '`' := h c (List.mem_cons_self c rest)
      have hrest : ∀ x ∈ rest, x ≠ '`' := fun x hx => h x (List.mem_cons_of_mem c hx)
      have c1 : startsWithChars fenceOpenNl (c :: rest) = false :=
        swc_head_ne c rest (fun he => hc he.symm)
      have c2 : startsWithChars fenceOpen (c :: rest) = false :=
        swc_head_ne c rest (fun he => hc he.symm)
      have c3 : startsWithChars fenceNlClose (c :: rest) = false :=
        swc_fenceNlClose_false c rest hc (fun x hx => hrest x (head?_mem hx))
      have c4 : startsWithChars fenceClose (c :: rest) = false :=
        swc_head_ne c rest (fun he => hc he.symm)
      show stripFencesAux (fuel + 1) (c :: rest) = c :: rest
      simp only [stripFencesAux, c1, c2, c3, c4, Bool.false_eq_true, if_false]
      rw [ih fuel hrest]

theorem stripFences_no_backtick (l : List Char) (h : ∀ c ∈ l, c ≠ '`') :
    stripFences l = l :=
  stripFencesAux_no_backtick l l.length h

/-- Scanning `j ++ "\n```"` with no backtick inside `j` removes exactly the
closing fence. -/
theorem stripFencesAux_json_close :
    ∀ (j : List Char) (fuel : ℕ), (∀ c ∈ j, c ≠ '`') → j.length + 2 ≤ fuel →
      stripFencesAux fuel (j ++ fenceNlClose) = j := by
  intro j
  induction j with
  | nil =>
    intro fuel h hf
    match fuel, hf with
    | f + 2, _ => rfl
  | cons a j' ih =>
    intro fuel h hf
    have ha : a ≠ '`' := h a (List.mem_cons_self a j')
    have hj' : ∀ x ∈ j', x ≠ '`' := fun x hx => h x (List.mem_cons_of_mem a hx)
    match fuel, hf with
    | fuel + 1, hf =>
      have c1 : startsWithChars fenceOpenNl (a :: (j' ++ fenceNlClose)) = false :=
        swc_head_ne _ _ (fun he => ha he.symm)
      have c2 : startsWithChars fenceOpen (a :: (j' ++ fenceNlClose)) = false :=
        swc_head_ne _ _ (fun he => ha he.symm)
      have c3 : startsWithChars fenceNlClose (a :: (j' ++ fenceNlClose)) = false := by
        refine swc_fenceNlClose_false a _ ha ?_
        intro x hx
        cases j' with
        | nil =>
          rw [← Option.some.inj hx]
          decide
        | cons y j'' =>
          rw [← Option.some.inj hx]
          exact hj' y (List.mem_cons_self y j'')
      have c4 : startsWithChars fenceClose (a :: (j' ++ fenceNlClose)) = false :=
        swc_head_ne _ _ (fun he => ha he.symm)
      show stripFencesAux (fuel + 1) (a :: (j' ++ fenceNlClose)) = a :: j'
      simp only [stripFencesAux, c1, c2, c3, c4, Bool.false_eq_true, if_false]
      rw [ih fuel hj' (by simp at hf ⊢; omega)]

/-- A fenced JSON block is stripped to its body. -/
theorem stripFences_fenced (j : List Char) (h : ∀ c ∈ j, c ≠ '`') :
    stripFences (fenceOpenNl ++ (j ++ fenceNlClose)) = j := by
  have hlen : (fenceOpenNl ++ (j ++ fenceNlClose)).length = j.length + 12 := by
    simp [fenceOpenNl, fenceNlClose]
  unfold stripFences
  rw [hlen]
  have step1 : stripFencesAux (j.length + 12) (fenceOpenNl ++ (j ++ fenceNlClose)) =
      stripFencesAux (j.length + 11) (j ++ fenceNlClose) := rfl
  rw [step1]
  exact stripFencesAux_json_close j (j.length + 11) h (by omega)

theorem dropWhile_head_not (p : Char → Bool) (l : List Char)
    (h : ∀ c, l.head? = some c → p c = false) : l.dropWhile p = l := by
  cases l with
  | nil => rfl
  | cons a t =>
    rw [List.dropWhile_cons]
    simp [h a rfl]

/-- The brace-pair extraction: when the cleaned text is prose (no braces)
followed by a block starting with `'{'` and ending with `'}'`, the extraction
returns exactly that block. -/
theorem extractCandidate_of_strip (text p body : List Char)
    (hstrip : stripFences text = p ++ ('{' :: body))
    (hpo : ∀ c ∈ p, c ≠ '{')
    (hlast : ('{' :: body).getLast? = some '}') :
    extractCandidate text = '{' :: body := by
  have hbody : body ≠ [] := by
    intro hb
    subst hb
    exact absurd (Option.some.inj hlast) (by decide)
  have hq : ∀ c ∈ p.dropWhile isJsSpace, c ∈ p :=
    fun c hc => (List.dropWhile_sublist isJsSpace).subset hc
  have hg0 : (p.dropWhile isJsSpace ++ '{' :: body).getLast? = some '}' := by
    rw [List.getLast?_append, hlast]
    rfl
  have hclean : jsTrim (stripFences text) =
      p.dropWhile isJsSpace ++ ('{' :: body) := by
    rw [hstrip]
    unfold jsTrim
    have h1 : (p ++ '{' :: body).dropWhile isJsSpace =
        p.dropWhile isJsSpace ++ ('{' :: body) := by
      rw [List.dropWhile_append]
      by_cases hqe : (p.dropWhile isJsSpace).isEmpty
      · rw [if_pos hqe]
        rw [List.isEmpty_iff.mp hqe, List.nil_append]
        apply dropWhile_head_not
        intro c hc
        rw [← Option.some.inj hc]
        decide
      · rw [if_neg hqe]
    rw [h1]
    have h2 : (p.dropWhile isJsSpace ++ '{' :: body).reverse.dropWhile isJsSpace =
        (p.dropWhile isJsSpace ++ '{' :: body).reverse := by
      apply dropWhile_head_not
      intro c hc
      rw [List.head?_reverse, hg0] at hc
      rw [← Option.some.inj hc]
      decide
    rw [h2, List.reverse_reverse]
  have hf : indexOfChar (p.dropWhile isJsSpace ++ '{' :: body) '{' =
      some (p.dropWhile isJsSpace).length := by
    unfold indexOfChar
    rw [List.findIdx?_append]
    have hqn : ((p.dropWhile isJsSpace).findIdx? (· = '{')) = none :=
      List.findIdx?_eq_none_iff.mpr fun x hx => by
        simp [hpo x (hq x hx)]
    rw [hqn, Option.none_or, List.findIdx?_cons]
    simp
  have hlb : lastIndexOfChar (p.dropWhile isJsSpace ++ '{' :: body) '}' =
      some ((p.dropWhile isJsSpace ++ '{' :: body).length - 1) := by
    unfold lastIndexOfChar
    have hg : (p.dropWhile isJsSpace ++ '{' :: body).reverse.head? = some '}' := by
      rw [List.head?_reverse]
      exact hg0
    cases hrev : (p.dropWhile isJsSpace ++ '{' :: body).reverse with
    | nil => rw [hrev] at hg; cases hg
    | cons a t =>
      rw [hrev] at hg
      rw [← Option.some.inj hg, List.findIdx?_cons]
      simp
  unfold extractCandidate
  rw [hclean]
  simp only [hf, hlb]
  have hlen : (p.dropWhile isJsSpace ++ '{' :: body).length =
      (p.dropWhile isJsSpace).length + (body.length + 1) := by
    simp
  have hble : 1 ≤ body.length := by
    cases body with
    | nil => exact absurd rfl hbody
    | cons _ _ => simp
  rw [if_pos (by omega)]
  rw [show (p.dropWhile isJsSpace ++ '{' :: body).length - 1 + 1 -
      (p.dropWhile isJsSpace).length = ('{' :: body).length from by
    rw [hlen]; simp; omega]
  rw [List.drop_left, List.take_length]

/-- C7, counterexample: the response text `"5"` contains no JSON object (no
brace at all), yet `generateScript` succeeds, returning the parsed number —
the cleaned text is parsed as-is — so "fails exactly when no JSON object is
found" is false. -/
theorem C7_cex_bare_number_succeeds :
    generateScript ['5'] = .ok (Json.num "5") ∧ indexOfChar ['5'] '{' = none :=
  ⟨rfl, rfl⟩

/-- C7, amended: script extraction strips markdown fencing, trims, and — when
a `'{'` precedes a final `'}'` — takes the span from the first `'{'` to the
last `'}'`; it throws exactly when the response text is empty
(`emptyResponse`) or the candidate span does not parse as a JSON VALUE
(`parseFailure`).  A text with no brace pair is parsed whole, so a bare JSON
value like `5` succeeds rather than failing.  Leading prose (no braces, no
backticks) before a brace-delimited block, and `"```json\n…\n```"` fencing
around it, do not change the result. -/
theorem C7_script_extraction :
    (∀ text : List Char, generateScript text = .error .emptyResponse ↔ text = []) ∧
    (∀ text : List Char, text ≠ [] →
      (generateScript text = .error .parseFailure ↔
        jsonParse (extractCandidate text) = none)) ∧
    (∀ p body : List Char,
      (∀ c ∈ p, c ≠ '`') → (∀ c ∈ p, c ≠ '{') → (∀ c ∈ body, c ≠ '`') →
      ('{' :: body).getLast? = some '}' →
      generateScript (p ++ ('{' :: body)) = generateScript ('{' :: body)) ∧
    (∀ body : List Char, (∀ c ∈ body, c ≠ '`') → ('{' :: body).getLast? = some '}' →
      generateScript (fenceOpenNl ++ (('{' :: body) ++ fenceNlClose)) =
        generateScript ('{' :: body)) := by
  have hextract_plain : ∀ body : List Char, (∀ c ∈ body, c ≠ '`') →
      ('{' :: body).getLast? = some '}' →
      extractCandidate ('{' :: body) = '{' :: body := by
    intro body hb hlast
    refine extractCandidate_of_strip _ [] body ?_ (by intro c hc; cases hc) hlast
    rw [List.nil_append]
    apply stripFences_no_backtick
    intro c hc
    rcases List.mem_cons.mp hc with h | h
    · rw [h]; decide
    · exact hb c h
  refine ⟨?_, ?_, ?_, ?_⟩
  · intro text
    cases text with
    | nil => exact ⟨fun _ => rfl, fun _ => rfl⟩
    | cons c rest =>
      constructor
      · intro h
        unfold generateScript at h
        rw [if_neg (by simp)] at h
        cases hp : jsonParse (extractCandidate (c :: rest)) with
        | some v =>
          rw [hp] at h
          exact Except.noConfusion h
        | none =>
          rw [hp] at h
          have h' : ScriptError.parseFailure = ScriptError.emptyResponse :=
            Except.error.inj h
          exact ScriptError.noConfusion h'
      · intro h
        exact absurd h (by simp)
  · intro text hne
    unfold generateScript
    rw [if_neg (by simpa [List.isEmpty_iff] using hne)]
    cases hp : jsonParse (extractCandidate text) with
    | some v =>
      exact ⟨fun h => Except.noConfusion h, fun h => Option.noConfusion h⟩
    | none =>
      exact ⟨fun _ => rfl, fun _ => rfl⟩
  · intro p body hpB hpo hbB hlast
    have hstrip : stripFences (p ++ ('{' :: body)) = p ++ ('{' :: body) := by
      apply stripFences_no_backtick
      intro c hc
      rcases List.mem_append.mp hc with h | h
      · exact hpB c h
      · rcases List.mem_cons.mp h with h | h
        · rw [h]; decide
        · exact hbB c h
    have hx := extractCandidate_of_strip _ p body hstrip hpo hlast
    have hx2 := hextract_plain body hbB hlast
    unfold generateScript
    rw [if_neg (by simp), if_neg (by simp), hx, hx2]
  · intro body hbB hlast
    have hstrip : stripFences (fenceOpenNl ++ (('{' :: body) ++ fenceNlClose)) =
        [] ++ ('{' :: body) := by
      rw [List.nil_append]
      apply stripFences_fenced
      intro c hc
      rcases List.mem_cons.mp hc with h | h
      · rw [h]; decide
      · exact hbB c h
    have hx := extractCandidate_of_strip _ [] body hstrip (by intro c hc; cases hc) hlast
    have hx2 := hextract_plain body hbB hlast
    unfold generateScript
    rw [if_neg (by simp [fenceOpenNl]), if_neg (by simp), hx, hx2]

/-- Witness for `C7_script_extraction`: leading prose before a JSON object
does not change the parse result. -/
theorem C7_script_extraction_witness :
    generateScript ("Thinking... ".toList ++ ('{' :: "\"a\":1\x7d".toList)) =
      generateScript ('{' :: "\"a\":1\x7d".toList) :=
  C7_script_extraction.2.2.1 "Thinking... ".toList "\"a\":1\x7d".toList
    (by decide) (by decide) (by decide) (by decide)

/-! ## C1 — batch scheduling -/

theorem chunks_flatten {α : Type} : ∀ l : List α, (chunks l).flatten = l
  | [] => rfl
  | [_] => rfl
  | [_, _] => rfl
  | a :: b :: c :: rest => by
    show ([a, b, c] :: chunks rest).flatten = _
    show [a, b, c] ++ (chunks rest).flatten = _
    rw [chunks_flatten rest]
    rfl

theorem chunks_sizes {α : Type} : ∀ l : List α, ∀ b ∈ chunks l, b.length ≤ 3 ∧ b ≠ []
  | [] => by intro b hb; cases hb
  | [a] => by
    intro b hb
    rcases List.mem_singleton.mp hb with h
    subst h
    exact ⟨by simp, by simp⟩
  | [a, a'] => by
    intro b hb
    rcases List.mem_singleton.mp hb with h
    subst h
    exact ⟨by simp, by simp⟩
  | a :: b' :: c :: rest => by
    intro b hb
    rcases List.mem_cons.mp hb with h | h
    · subst h
      exact ⟨by simp, by simp⟩
    · exact chunks_sizes rest b h

theorem batches_flatten (n : ℕ) : (batches n).flatten = List.range n :=
  chunks_flatten _

theorem batches_disjoint (n : ℕ) : List.Pairwise List.Disjoint (batches n) :=
  (List.nodup_flatten.mp (by rw [batches_flatten]; exact List.nodup_range n)).2

/-- If `a`, which is not in `X`, occurs in the first `p` events of `X ++ Y`,
then all of `X` — in particular `b` — lies within those first `p` events. -/
theorem mem_take_append_of {α : Type} (X Y : List α) (a b : α)
    (ha : a ∉ X) (hb : b ∈ X) (p : ℕ) (hp : a ∈ (X ++ Y).take p) :
    b ∈ (X ++ Y).take p := by
  rw [List.take_append_eq_append_take] at hp ⊢
  rcases List.mem_append.mp hp with h1 | h2
  · exact absurd (List.mem_of_mem_take h1) ha
  · have hlen : X.length < p := by
      by_contra hle
      push_neg at hle
      rw [Nat.sub_eq_zero_of_le hle] at h2
      cases h2
    refine List.mem_append.mpr (Or.inl ?_)
    rw [List.take_of_length_le (Nat.le_of_lt hlen)]
    exact hb

theorem start_not_mem_settles (i : ℕ) (ord : List ℕ) :
    SchedEvent.start i ∉ ord.map SchedEvent.settle := by
  intro h
  obtain ⟨x, -, hx⟩ := List.mem_map.mp h
  cases hx

theorem settle_not_mem_starts (j : ℕ) (b : List ℕ) :
    SchedEvent.settle j ∉ b.map SchedEvent.start := by
  intro h
  obtain ⟨x, -, hx⟩ := List.mem_map.mp h
  cases hx

theorem start_mem_starts_iff (i : ℕ) (b : List ℕ) :
    SchedEvent.start i ∈ b.map SchedEvent.start ↔ i ∈ b := by
  constructor
  · intro h
    obtain ⟨x, hx, hxe⟩ := List.mem_map.mp h
    cases hxe
    exact hx
  · intro h
    exact List.mem_map.mpr ⟨i, h, rfl⟩

theorem settle_mem_settles_iff (j : ℕ) (ord : List ℕ) :
    SchedEvent.settle j ∈ ord.map SchedEvent.settle ↔ j ∈ ord := by
  constructor
  · intro h
    obtain ⟨x, hx, hxe⟩ := List.mem_map.mp h
    cases hxe
    exact hx
  · intro h
    exact List.mem_map.mpr ⟨j, h, rfl⟩

/-- Cross-batch ordering: in any pipeline trace, whenever the operation of a
scene of batch `k` has been launched, every scene of every earlier batch `k'`
has already settled. -/
theorem batchesTrace_cross (bs : List (List ℕ)) (tr : List SchedEvent)
    (h : BatchesTrace bs tr) (hdisj : List.Pairwise List.Disjoint bs) :
    ∀ (k' k : ℕ) (hk' : k' < bs.length) (hk : k < bs.length), k' < k →
      ∀ j ∈ bs[k'], ∀ i ∈ bs[k],
        ∀ p, SchedEvent.start i ∈ tr.take p → SchedEvent.settle j ∈ tr.take p := by
  induction h with
  | nil =>
    intro k' k hk' hk
    exact absurd hk' (by simp)
  | cons b ord rest tr hperm ht ih =>
    intro k' k hk' hk hlt j hj i hi p hstart
    obtain ⟨kk, rfl⟩ : ∃ kk, k = kk + 1 := ⟨k - 1, by omega⟩
    have hkk : kk < rest.length := by
      simpa using hk
    have hik : i ∈ rest[kk] := by
      simpa using hi
    have hib : i ∉ b := by
      intro hmem
      exact (List.pairwise_cons.mp hdisj).1 rest[kk] (List.getElem_mem hkk) hmem hik
    have hXassoc : (b.map SchedEvent.start ++ ord.map SchedEvent.settle ++ tr) =
        (b.map SchedEvent.start ++ ord.map SchedEvent.settle) ++ tr := by
      rw [List.append_assoc]
    have hstart_notX :
        SchedEvent.start i ∉ b.map SchedEvent.start ++ ord.map SchedEvent.settle := by
      intro hmem
      rcases List.mem_append.mp hmem with h1 | h1
      · exact hib ((start_mem_starts_iff i b).mp h1)
      · exact start_not_mem_settles i ord h1
    rw [hXassoc] at hstart ⊢
    cases k' with
    | zero =>
      have hjb : j ∈ b := by simpa using hj
      have hsettleX : SchedEvent.settle j ∈
          b.map SchedEvent.start ++ ord.map SchedEvent.settle :=
        List.mem_append.mpr (Or.inr ((settle_mem_settles_iff j ord).mpr
          (hperm.mem_iff.mpr hjb)))
      exact mem_take_append_of _ tr _ _ hstart_notX hsettleX p hstart
    | succ kk' =>
      have hkk' : kk' < rest.length := by simpa using hk'
      have hjk : j ∈ rest[kk'] := by simpa using hj
      rw [List.take_append_eq_append_take] at hstart ⊢
      rcases List.mem_append.mp hstart with h1 | h1
      · exact absurd (List.mem_of_mem_take h1) hstart_notX
      · refine List.mem_append.mpr (Or.inr ?_)
        exact ih (List.pairwise_cons.mp hdisj).2 kk' kk hkk' hkk (by omega)
          j hjk i hik _ h1

/-- Within-batch ordering: all members of a batch are launched before any
member of that batch settles. -/
theorem batchesTrace_within (bs : List (List ℕ)) (tr : List SchedEvent)
    (h : BatchesTrace bs tr) (hdisj : List.Pairwise List.Disjoint bs) :
    ∀ (k : ℕ) (hk : k < bs.length),
      ∀ i ∈ bs[k], ∀ j ∈ bs[k],
        ∀ p, SchedEvent.settle j ∈ tr.take p → SchedEvent.start i ∈ tr.take p := by
  induction h with
  | nil =>
    intro k hk
    exact absurd hk (by simp)
  | cons b ord rest tr hperm ht ih =>
    intro k hk i hi j hj p hsettle
    cases k with
    | zero =>
      have hib : i ∈ b := by simpa using hi
      have hsjS : SchedEvent.settle j ∉ b.map SchedEvent.start :=
        settle_not_mem_starts j b
      have hsiS : SchedEvent.start i ∈ b.map SchedEvent.start :=
        (start_mem_starts_iff i b).mpr hib
      rw [List.append_assoc] at hsettle ⊢
      exact mem_take_append_of _ _ _ _ hsjS hsiS p hsettle
    | succ kk =>
      have hkk : kk < rest.length := by simpa using hk
      have hik : i ∈ rest[kk] := by simpa using hi
      have hjk : j ∈ rest[kk] := by simpa using hj
      have hjb : j ∉ b := by
        intro hmem
        exact (List.pairwise_cons.mp hdisj).1 rest[kk] (List.getElem_mem hkk) hmem hjk
      have hXassoc : (b.map SchedEvent.start ++ ord.map SchedEvent.settle ++ tr) =
          (b.map SchedEvent.start ++ ord.map SchedEvent.settle) ++ tr := by
        rw [List.append_assoc]
      have hsettle_notX :
          SchedEvent.settle j ∉ b.map SchedEvent.start ++ ord.map SchedEvent.settle := by
        intro hmem
        rcases List.mem_append.mp hmem with h1 | h1
        · exact settle_not_mem_starts j b h1
        · exact hjb (hperm.mem_iff.mp ((settle_mem_settles_iff j ord).mp h1))
      rw [hXassoc] at hsettle ⊢
      rw [List.take_append_eq_append_take] at hsettle ⊢
      rcases List.mem_append.mp hsettle with h1 | h1
      · exact absurd (List.mem_of_mem_take h1) hsettle_notX
      · refine List.mem_append.mpr (Or.inr ?_)
        exact ih (List.pairwise_cons.mp hdisj).2 kk hkk i hik j hjk _ h1

/-- C1: each pipeline loop partitions the scene indices into consecutive
batches of fixed size `BATCH_SIZE = 3` (for `N = 7`: exactly 3 batches of
sizes 3, 3, 1); in every possible trace of a loop, no scene's operation is
launched before every scene of every preceding batch has settled, and all
members of a batch are launched before any member settles. -/
theorem C1_batch_scheduling (n : ℕ) :
    (BATCH_SIZE = 3 ∧ (batches 7).length = 3 ∧
      (batches 7).map List.length = [3, 3, 1]) ∧
    (batches n).flatten = List.range n ∧
    (∀ b ∈ batches n, b.length ≤ BATCH_SIZE ∧ b ≠ []) ∧
    (∀ tr, IsPipelineTrace n tr →
      (∀ (k' k : ℕ) (hk' : k' < (batches n).length) (hk : k < (batches n).length),
        k' < k → ∀ j ∈ (batches n)[k'], ∀ i ∈ (batches n)[k],
          ∀ p, SchedEvent.start i ∈ tr.take p → SchedEvent.settle j ∈ tr.take p) ∧
      (∀ (k : ℕ) (hk : k < (batches n).length),
        ∀ i ∈ (batches n)[k], ∀ j ∈ (batches n)[k],
          ∀ p, SchedEvent.settle j ∈ tr.take p → SchedEvent.start i ∈ tr.take p)) := by
  refine ⟨⟨rfl, rfl, rfl⟩, batches_flatten n, chunks_sizes _, ?_⟩
  intro tr htr
  exact ⟨batchesTrace_cross (batches n) tr htr (batches_disjoint n),
    batchesTrace_within (batches n) tr htr (batches_disjoint n)⟩

/-- Witness for `C1_batch_scheduling`: in the canonical 7-scene trace, once
scene 3 (batch 1) has been launched — here within the first 7 events — scene
0 of batch 0 has already settled. -/
theorem C1_batch_scheduling_witness :
    SchedEvent.settle 0 ∈
      ([SchedEvent.start 0, SchedEvent.start 1, SchedEvent.start 2,
        SchedEvent.settle 0, SchedEvent.settle 1, SchedEvent.settle 2,
        SchedEvent.start 3, SchedEvent.start 4, SchedEvent.start 5,
        SchedEvent.settle 3, SchedEvent.settle 4, SchedEvent.settle 5,
        SchedEvent.start 6, SchedEvent.settle 6] : List SchedEvent).take 7 := by
  have h0 : BatchesTrace [] [] := BatchesTrace.nil
  have h1 : BatchesTrace [[6]]
      ([6].map SchedEvent.start ++ [6].map SchedEvent.settle ++ []) :=
    BatchesTrace.cons [6] [6] [] [] (List.Perm.refl _) h0
  have h2 := BatchesTrace.cons [3, 4, 5] [3, 4, 5] [[6]] _ (List.Perm.refl _) h1
  have h3 := BatchesTrace.cons [0, 1, 2] [0, 1, 2] [[3, 4, 5], [6]] _ (List.Perm.refl _) h2
  have htr : IsPipelineTrace 7
      [SchedEvent.start 0, SchedEvent.start 1, SchedEvent.start 2,
       SchedEvent.settle 0, SchedEvent.settle 1, SchedEvent.settle 2,
       SchedEvent.start 3, SchedEvent.start 4, SchedEvent.start 5,
       SchedEvent.settle 3, SchedEvent.settle 4, SchedEvent.settle 5,
       SchedEvent.start 6, SchedEvent.settle 6] := h3
  exact ((C1_batch_scheduling 7).2.2.2 _ htr).1 0 1 (by decide) (by decide) (by decide)
    0 (by decide) 3 (by decide) 7 (by decide)

/-! ## C6 — incremental persistence gate -/

theorem safeSaveStep_inFlight (st : SaveState) (e : SaveEvent)
    (h : st.inFlight = st.isSaving.toNat) :
    (safeSaveStep st e).inFlight = (safeSaveStep st e).isSaving.toNat := by
  cases e with
  | request =>
    unfold safeSaveStep requestSave
    cases hs : st.isSaving <;> simp_all
  | complete ok =>
    unfold safeSaveStep
    cases hs : st.isSaving <;> cases hp : st.pendingSave <;> simp_all
  | timerFire =>
    unfold safeSaveStep requestSave
    by_cases ht : st.timers = 0
    · rw [if_pos ht]; exact h
    · rw [if_neg ht]
      cases hs : st.isSaving <;> simp_all

theorem runSaveEvents_inFlight (evs : List SaveEvent) :
    (runSaveEvents initSaveState evs).inFlight =
      (runSaveEvents initSaveState evs).isSaving.toNat := by
  suffices h : ∀ st, st.inFlight = st.isSaving.toNat →
      (runSaveEvents st evs).inFlight = (runSaveEvents st evs).isSaving.toNat from
    h initSaveState rfl
  induction evs with
  | nil => intro st h; exact h
  | cons e evs ih =>
    intro st h
    exact ih (safeSaveStep st e) (safeSaveStep_inFlight st e h)

/-- While a save is in flight, any number of further requests only raise the
pending flag; they start no save and write nothing. -/
theorem runSaveEvents_requests_while_saving (st : SaveState) (hs : st.isSaving = true) :
    ∀ N : ℕ, runSaveEvents st (List.replicate N .request) =
      { st with pendingSave := st.pendingSave || decide (0 < N) } := by
  intro N
  induction N generalizing st with
  | zero => simp [runSaveEvents]
  | succ N ih =>
    rw [List.replicate_succ]
    show runSaveEvents (safeSaveStep st .request) (List.replicate N .request) = _
    have hstep : safeSaveStep st .request = { st with pendingSave := true } := by
      unfold safeSaveStep requestSave
      rw [if_pos hs]
    rw [hstep, ih { st with pendingSave := true } hs]
    simp

/-- C6: (1) in every state reachable from the initial one, the number of
`saveCurrentProject` calls in flight equals the saving flag — hence at most
one save is ever in flight (and the pending state is a single boolean, so at
most one save is pending); (2) starting from any state with a save in flight,
`N ≥ 1` rapid save requests perform no store write, collapse into the single
pending flag, and after the in-flight save completes exactly one deferred save
runs — so the episode costs at most 2 writes (the in-flight one plus the
deferred one), never `N`; (3) a failed incremental save drives the state
machine exactly as a successful one — the failure is swallowed and never
escalates. -/
theorem C6_save_gate_coalescing :
    (∀ evs : List SaveEvent,
      (runSaveEvents initSaveState evs).inFlight =
        (runSaveEvents initSaveState evs).isSaving.toNat ∧
      (runSaveEvents initSaveState evs).inFlight ≤ 1) ∧
    (∀ (st : SaveState) (N : ℕ) (ok : Bool), st.isSaving = true → 1 ≤ N →
      (runSaveEvents st (List.replicate N .request)).writes = st.writes ∧
      (runSaveEvents st (List.replicate N .request)).pendingSave = true ∧
      (safeSaveStep (runSaveEvents st (List.replicate N .request)) (.complete ok)).writes
        = st.writes ∧
      (safeSaveStep (safeSaveStep (runSaveEvents st (List.replicate N .request))
        (.complete ok)) .timerFire).writes = st.writes + 1) ∧
    (∀ (st : SaveState) (ok : Bool),
      safeSaveStep st (.complete ok) = safeSaveStep st (.complete true)) := by
  refine ⟨?_, ?_, fun st ok => rfl⟩
  · intro evs
    have h := runSaveEvents_inFlight evs
    refine ⟨h, ?_⟩
    rw [h]
    cases (runSaveEvents initSaveState evs).isSaving <;> simp
  · intro st N ok hs hN
    have hrun := runSaveEvents_requests_while_saving st hs N
    have hdec : decide (0 < N) = true := by
      rw [decide_eq_true_eq]
      omega
    rw [hrun, hdec, Bool.or_true]
    refine ⟨rfl, rfl, ?_, ?_⟩
    · unfold safeSaveStep
      rw [if_pos hs]
      simp [hs]
    · unfold safeSaveStep requestSave
      rw [if_pos hs]
      simp [hs]

/-- Witness for `C6_save_gate_coalescing`: from a state with one save in
flight and one prior write, five rapid requests leave the write count at 1,
and the completion plus the deferred save bring it to exactly 2. -/
theorem C6_save_gate_coalescing_witness :
    (runSaveEvents ⟨true, false, 1, 1, 0⟩ (List.replicate 5 .request)).writes = 1 ∧
    (runSaveEvents ⟨true, false, 1, 1, 0⟩ (List.replicate 5 .request)).pendingSave = true ∧
    (safeSaveStep (runSaveEvents ⟨true, false, 1, 1, 0⟩ (List.replicate 5 .request))
      (.complete false)).writes = 1 ∧
    (safeSaveStep (safeSaveStep (runSaveEvents ⟨true, false, 1, 1, 0⟩
      (List.replicate 5 .request)) (.complete false)) .timerFire).writes = 1 + 1 :=
  C6_save_gate_coalescing.2.1 ⟨true, false, 1, 1, 0⟩ 5 false rfl (by decide)

/-! ## C10 — scene ids equal array indices, always -/

/-- C10: ids are assigned once at script generation as the array index
(`map id = range n`), neither pipeline write ever changes any scene's id or
the array's order/length, and therefore after the asset pipeline completes —
under any per-scene successes and failures whatsoever — the ids still form the
contiguous range `0..N-1` in array position. -/
theorem C10_scene_ids_stable (raw : List RawScene) (oA : AudioOracle) (oI : ImageOracle) :
    (assignIds raw).map Scene.id = List.range raw.length ∧
    (∀ (rs : List Scene) (evs : List AssetEvent),
      (runEvents rs evs).map Scene.id = rs.map Scene.id) ∧
    (runPipelines (assignIds raw) oA oI).map Scene.id = List.range raw.length := by
  refine ⟨assignIds_map_id raw, fun rs evs => map_id_runEvents rs evs, ?_⟩
  unfold runPipelines
  rw [map_id_runEvents, map_id_runEvents, assignIds_map_id]

end SVG
